import Mathlib

/-!
Verification of the lua-types-bench workload scripts
====================================================

Shallow embedding of `src/bench.cpp` (single-operator variant, "variant A")
and the full-operator benchmark file (variant B): the sol2 usertype
registrations, the two Lua `do_work` scripts (usertype-based and
table-based), and the numeric semantics they run under.

Numeric model: Lua 5.4 numbers are either 64-bit integers (wrap-around
arithmetic, modelled as `ℤ` with an explicit wrap at `2^64`) or IEEE-754
binary64 doubles; the C++ structs store IEEE-754 binary32 floats (`Vector2`,
`Vector3`, `RectF`) or 32-bit ints (`Point`).  Floating point values are
modelled as exact rationals together with an explicit round-to-nearest,
ties-to-even operator `fl p q` (`p = 24` for binary32, `p = 53` for
binary64, unbounded exponent — no value in any claim comes near the
overflow/underflow range of either format).
-/

set_option maxRecDepth 4000

namespace LuaBench

/-! ## Machine integer wrap-around -/

/-- Two's-complement wrap of an integer into `[-2^63, 2^63)`:
Lua 5.4 integer arithmetic semantics. -/
def wrap64 (z : ℤ) : ℤ := (z + 2 ^ 63) % 2 ^ 64 - 2 ^ 63

/-- Two's-complement wrap into `[-2^31, 2^31)`: conversion of a Lua integer
to the C++ 32-bit `int` fields of `Point`. -/
def wrap32 (z : ℤ) : ℤ := (z + 2 ^ 31) % 2 ^ 32 - 2 ^ 31

/-! ## Binary floating-point rounding on exact rationals -/

/-- Fuel-driven base-2 logarithm on `ℕ` (structural recursion so that the
kernel can evaluate it). `nlog2Aux fuel n = ⌊log₂ n⌋` whenever `n ≤ fuel`
and `1 ≤ n`. -/
def nlog2Aux : ℕ → ℕ → ℕ
  | 0, _ => 0
  | fuel + 1, n => if n ≤ 1 then 0 else nlog2Aux fuel (n / 2) + 1

/-- Floor base-2 logarithm `⌊log₂ n⌋` for `1 ≤ n` (and `0` at `0`). -/
def nlog2 (n : ℕ) : ℕ := nlog2Aux n n

/-- Floor base-2 logarithm `⌊log₂ q⌋` of a positive rational: the unique `e` with
`2^e ≤ q < 2^(e+1)`. -/
def qlog2 (q : ℚ) : ℤ :=
  if 1 ≤ q then (nlog2 ⌊q⌋.toNat : ℤ)
  else
    -- `0 < q < 1`: locate `q⁻¹ > 1` first.
    let k : ℤ := nlog2 ⌊q⁻¹⌋.toNat
    if (2 : ℚ) ^ (-k) ≤ q then -k else -(k + 1)

/-- Round a rational to the nearest integer, ties to even. -/
def rne (x : ℚ) : ℤ :=
  if x - ⌊x⌋ < 1 / 2 then ⌊x⌋
  else if 1 / 2 < x - ⌊x⌋ then ⌊x⌋ + 1
  else if ⌊x⌋ % 2 = 0 then ⌊x⌋ else ⌊x⌋ + 1

/-- Round a positive rational to `p` significand bits
(round to nearest, ties to even, unbounded exponent). -/
def flPos (p : ℕ) (q : ℚ) : ℚ :=
  (rne (q * (2 : ℚ) ^ ((p : ℤ) - 1 - qlog2 q)) : ℚ) * (2 : ℚ) ^ (qlog2 q - (p : ℤ) + 1)

/-- Round a rational to `p` significand bits: the result of an IEEE-754
operation (binary32 for `p = 24`, binary64 for `p = 53`) whose exact value
is `q`, in round-to-nearest-even mode, ignoring overflow/underflow (no
value in this development comes near either). -/
def fl (p : ℕ) (q : ℚ) : ℚ :=
  if 0 < q then flPos p q
  else if q < 0 then -flPos p (-q)
  else 0

/-! ## Lua numbers

A Lua 5.4 number is either a 64-bit integer or a binary64 float.
Arithmetic on two integers stays integral (wrapping); as soon as a float is
involved the integer operand is converted to binary64 (a C cast, i.e. a
rounding at 53 bits) and the operation is a binary64 operation.  Division
always produces a float.  Comparison between an integer and a float is
exact (Lua compares the mathematical values). -/

/-- Binary64 addition. -/
def dadd (a b : ℚ) : ℚ := fl 53 (a + b)

/-- Binary64 subtraction. -/
def dsub (a b : ℚ) : ℚ := fl 53 (a - b)

/-- Binary64 multiplication. -/
def dmul (a b : ℚ) : ℚ := fl 53 (a * b)

/-- Binary64 division. -/
def ddiv (a b : ℚ) : ℚ := fl 53 (a / b)

/-- Conversion of a 64-bit integer to binary64 (C cast, rounds at 53 bits). -/
def int2d (z : ℤ) : ℚ := fl 53 (z : ℚ)

/-- The value of a Lua 5.4 number: integer or binary64 float. -/
inductive LNum where
  | i (z : ℤ)
  | d (q : ℚ)
deriving DecidableEq

/-- The binary64 value of a Lua number used as a float operand. -/
def toD : LNum → ℚ
  | .i z => int2d z
  | .d q => q

/-- The exact mathematical value of a Lua number (used for comparisons,
which Lua 5.4 performs exactly across the integer/float divide). -/
def LNum.toQ : LNum → ℚ
  | .i z => (z : ℚ)
  | .d q => q

/-- Lua `+`. -/
def ladd : LNum → LNum → LNum
  | .i a, .i b => .i (wrap64 (a + b))
  | a, b => .d (dadd (toD a) (toD b))

/-- Lua `-`. -/
def lsub : LNum → LNum → LNum
  | .i a, .i b => .i (wrap64 (a - b))
  | a, b => .d (dsub (toD a) (toD b))

/-- Lua `*`. -/
def lmul : LNum → LNum → LNum
  | .i a, .i b => .i (wrap64 (a * b))
  | a, b => .d (dmul (toD a) (toD b))

/-- Lua `/` (always float division). -/
def ldiv (a b : LNum) : LNum := .d (ddiv (toD a) (toD b))

/-- Lua `>=` (exact comparison of mathematical values). -/
def lge (a b : LNum) : Bool := LNum.toQ b ≤ LNum.toQ a

/-- A Lua floating-point literal: the source text's decimal value rounded
to binary64 by the lexer. -/
def dlit (q : ℚ) : ℚ := fl 53 q

/-! ## The C++ geometry structs and the sol2 binding layer

From the struct definitions at the top of `bench.cpp` (identical in both
benchmark files): `Vector2`/`Vector3`/`RectF` store binary32 floats,
`Point` stores 32-bit ints. -/

/-- The C++ `struct Vector2 { float x, y; }`. -/
structure Vector2 where
  x : ℚ
  y : ℚ
deriving DecidableEq

/-- The C++ `struct Vector3 { float x, y, z; }`. -/
structure Vector3 where
  x : ℚ
  y : ℚ
  z : ℚ
deriving DecidableEq

/-- The C++ `struct RectF { float x, y, w, h; }`. -/
structure RectF where
  x : ℚ
  y : ℚ
  w : ℚ
  h : ℚ
deriving DecidableEq

/-- The C++ `struct Point { int x, y; }`. -/
structure Point where
  x : ℤ
  y : ℤ
deriving DecidableEq

/-- binary64 → binary32 conversion (C cast, rounds at 24 bits). -/
def d2f (q : ℚ) : ℚ := fl 24 q

/-- sol2 conversion of a Lua number to a C++ `float` parameter:
`lua_tonumber` (int64 → binary64) followed by a cast to binary32. -/
def num2f (v : LNum) : ℚ := d2f (toD v)

/-- sol2 conversion of a Lua number to a C++ `int` parameter:
the 64-bit Lua integer is narrowed to 32 bits. -/
def num2i32 : LNum → ℤ
  | .i z => wrap32 z
  | .d q => wrap32 ⌊q⌋

/-- The `Vector2(float, float)` constructor as called from Lua. -/
def mkVector2 (a b : LNum) : Vector2 := ⟨num2f a, num2f b⟩

/-- The `Vector3(float, float, float)` constructor as called from Lua. -/
def mkVector3 (a b c : LNum) : Vector3 := ⟨num2f a, num2f b, num2f c⟩

/-- The `RectF(float, float, float, float)` constructor as called from Lua. -/
def mkRectF (a b c e : LNum) : RectF := ⟨num2f a, num2f b, num2f c, num2f e⟩

/-- The `Point(int, int)` constructor as called from Lua. -/
def mkPoint (a b : LNum) : Point := ⟨num2i32 a, num2i32 b⟩

/-- The `__add` lambda for `Vector2`: `return Vector2{ a.x + b.x, a.y + b.y }`
(binary32 arithmetic, fresh value). -/
def v2AddLam (a b : Vector2) : Vector2 := ⟨fl 24 (a.x + b.x), fl 24 (a.y + b.y)⟩

/-- The `__sub` lambda for `Vector2`. -/
def v2SubLam (a b : Vector2) : Vector2 := ⟨fl 24 (a.x - b.x), fl 24 (a.y - b.y)⟩

/-- The `__mul` lambda for `Vector2` (scalar is a `float` parameter). -/
def v2MulLam (a : Vector2) (s : ℚ) : Vector2 := ⟨fl 24 (a.x * s), fl 24 (a.y * s)⟩

/-- The `__div` lambda for `Vector2`. -/
def v2DivLam (a : Vector2) (s : ℚ) : Vector2 := ⟨fl 24 (a.x / s), fl 24 (a.y / s)⟩

/-- The `__add` lambda for `Vector3`. -/
def v3AddLam (a b : Vector3) : Vector3 :=
  ⟨fl 24 (a.x + b.x), fl 24 (a.y + b.y), fl 24 (a.z + b.z)⟩

/-- The `__sub` lambda for `Vector3`. -/
def v3SubLam (a b : Vector3) : Vector3 :=
  ⟨fl 24 (a.x - b.x), fl 24 (a.y - b.y), fl 24 (a.z - b.z)⟩

/-- The `__mul` lambda for `Vector3`. -/
def v3MulLam (a : Vector3) (s : ℚ) : Vector3 :=
  ⟨fl 24 (a.x * s), fl 24 (a.y * s), fl 24 (a.z * s)⟩

/-- The `__div` lambda for `Vector3`. -/
def v3DivLam (a : Vector3) (s : ℚ) : Vector3 :=
  ⟨fl 24 (a.x / s), fl 24 (a.y / s), fl 24 (a.z / s)⟩

/-! ## Usertype registrations

Which metamethods each `new_usertype` call registers, with the registered
lambdas themselves.  `benchA_*` is `src/bench.cpp` (the single-operator
file): it registers `sol::meta_function::addition` only.  `fullB_*` is the
full-operator benchmark file: addition, subtraction, multiplication and
division. -/

/-- The operator metamethods a `new_usertype<Vector2>` call registers. -/
structure Vector2Reg where
  addOp : Option (Vector2 → Vector2 → Vector2)
  subOp : Option (Vector2 → Vector2 → Vector2)
  mulOp : Option (Vector2 → ℚ → Vector2)
  divOp : Option (Vector2 → ℚ → Vector2)

/-- The operator metamethods a `new_usertype<Vector3>` call registers. -/
structure Vector3Reg where
  addOp : Option (Vector3 → Vector3 → Vector3)
  subOp : Option (Vector3 → Vector3 → Vector3)
  mulOp : Option (Vector3 → ℚ → Vector3)
  divOp : Option (Vector3 → ℚ → Vector3)

/-- The `bench.cpp` registration for `Vector2`: addition only. -/
def benchA_V2Reg : Vector2Reg := ⟨some v2AddLam, none, none, none⟩

/-- The `bench.cpp` registration for `Vector3`: addition only. -/
def benchA_V3Reg : Vector3Reg := ⟨some v3AddLam, none, none, none⟩

/-- Full-operator file registration for `Vector2`. -/
def fullB_V2Reg : Vector2Reg := ⟨some v2AddLam, some v2SubLam, some v2MulLam, some v2DivLam⟩

/-- Full-operator file registration for `Vector3`. -/
def fullB_V3Reg : Vector3Reg := ⟨some v3AddLam, some v3SubLam, some v3MulLam, some v3DivLam⟩

/-! ## The usertype workload script (full-operator file, `USERTYPE_SCRIPT`)

The per-iteration locals depend only on the loop index `i`, so they are
defined as functions of `i`. -/

/-- Source line `local v2a = Vector2(i, i+1)`. -/
def uV2a (i : ℤ) : Vector2 := mkVector2 (.i i) (ladd (.i i) (.i 1))

/-- Source line `local v2b = Vector2(i+2, i+3)`. -/
def uV2b (i : ℤ) : Vector2 := mkVector2 (ladd (.i i) (.i 2)) (ladd (.i i) (.i 3))

/-- Source line `local v2add = v2a + v2b`: dispatches the registered `__add` lambda. -/
def uV2add (i : ℤ) : Vector2 := v2AddLam (uV2a i) (uV2b i)

/-- Source line `local v2sub = v2a - v2b`. -/
def uV2sub (i : ℤ) : Vector2 := v2SubLam (uV2a i) (uV2b i)

/-- Source line `local v2mul = v2a * 2.0` (the scalar is converted to `float`). -/
def uV2mul (i : ℤ) : Vector2 := v2MulLam (uV2a i) (d2f (dlit 2))

/-- Source line `local v2div = v2b / 2.0`. -/
def uV2div (i : ℤ) : Vector2 := v2DivLam (uV2b i) (d2f (dlit 2))

/-- Source line `local v3a = Vector3(i, i+1, i+2)`. -/
def uV3a (i : ℤ) : Vector3 :=
  mkVector3 (.i i) (ladd (.i i) (.i 1)) (ladd (.i i) (.i 2))

/-- Source line `local v3b = Vector3(i+3, i+4, i+5)`. -/
def uV3b (i : ℤ) : Vector3 :=
  mkVector3 (ladd (.i i) (.i 3)) (ladd (.i i) (.i 4)) (ladd (.i i) (.i 5))

/-- Source line `local v3add = v3a + v3b`. -/
def uV3add (i : ℤ) : Vector3 := v3AddLam (uV3a i) (uV3b i)

/-- Source line `local v3sub = v3a - v3b`. -/
def uV3sub (i : ℤ) : Vector3 := v3SubLam (uV3a i) (uV3b i)

/-- Source line `local v3mul = v3a * 2.0`. -/
def uV3mul (i : ℤ) : Vector3 := v3MulLam (uV3a i) (d2f (dlit 2))

/-- Source line `local v3div = v3b / 2.0`. -/
def uV3div (i : ℤ) : Vector3 := v3DivLam (uV3b i) (d2f (dlit 2))

/-- Source line `local r = RectF(i*0.5, i*0.3, 100.0, 50.0)`. -/
def uRect (i : ℤ) : RectF :=
  mkRectF (lmul (.i i) (.d (dlit (1 / 2)))) (lmul (.i i) (.d (dlit (3 / 10))))
    (.d (dlit 100)) (.d (dlit 50))

/-- Source line `local p = Point(i, i+1)`. -/
def uPoint (i : ℤ) : Point := mkPoint (.i i) (ladd (.i i) (.i 1))

/-- The point-in-region conditional `v2a.x >= r.x and v2a.y >= r.y` of the
usertype script (struct fields are read back into Lua as binary64). -/
def uCond (i : ℤ) : Bool :=
  lge (.d (uV2a i).x) (.d (uRect i).x) && lge (.d (uV2a i).y) (.d (uRect i).y)

/-- One iteration of the usertype script's loop body: updates the
accumulator `sum` and the running count `al` of Lua-heap allocations
(14 per iteration: `v2a v2b v2add v2sub v2mul v2div v3a v3b v3add v3sub
v3mul v3div r p` — every constructor call and every operator dispatch
produces a fresh userdata). -/
def uStep (i : ℤ) (sum : LNum) (al : ℕ) : LNum × ℕ :=
  let sum := ladd (ladd (ladd (ladd sum (.d (uV2add i).x)) (.d (uV2sub i).y))
    (.d (uV2mul i).x)) (.d (uV2div i).y)
  let sum := ladd (ladd (ladd (ladd sum (.d (uV3add i).x)) (.d (uV3sub i).y))
    (.d (uV3mul i).z)) (.d (uV3div i).x)
  let sum := ladd sum (lmul (.d (uRect i).w) (.d (uRect i).h))
  let sum := ladd (ladd sum (lmul (.i (uPoint i).x) (.i (uPoint i).x)))
    (lmul (.i (uPoint i).y) (.i (uPoint i).y))
  let sum := if uCond i then ladd sum (.d (dlit 1)) else sum
  (sum, al + 14)

/-- Function `do_work(n)` of the usertype script, threading the allocation counter:
`sum = 0.0; for i = 1, n do ... end; return sum`. -/
def uRun (n : ℕ) (al : ℕ) : LNum × ℕ :=
  (List.range n).foldl (fun st (k : ℕ) => uStep ((k : ℤ) + 1) st.1 st.2)
    (.d (dlit 0), al)

/-- The sum returned by the usertype `do_work(n)`. -/
def uDoWork (n : ℕ) : LNum := (uRun n 0).1

/-- The number of Lua-heap allocations the usertype `do_work(n)` performs. -/
def uAllocCount (n : ℕ) : ℕ := (uRun n 0).2

/-! ## The table workload script (full-operator file, `TABLE_SCRIPT`) -/

/-- A two-field Lua table `{x=…, y=…}`. -/
structure Tbl2 where
  x : LNum
  y : LNum
deriving DecidableEq

/-- A three-field Lua table `{x=…, y=…, z=…}`. -/
structure Tbl3 where
  x : LNum
  y : LNum
  z : LNum
deriving DecidableEq

/-- A four-field Lua table `{x=…, y=…, w=…, h=…}`. -/
structure TblR where
  x : LNum
  y : LNum
  w : LNum
  h : LNum
deriving DecidableEq

/-- Source line `local v2a = {x=i, y=i+1}`. -/
def tV2a (i : ℤ) : Tbl2 := ⟨.i i, ladd (.i i) (.i 1)⟩

/-- Source line `local v2b = {x=i+2, y=i+3}`. -/
def tV2b (i : ℤ) : Tbl2 := ⟨ladd (.i i) (.i 2), ladd (.i i) (.i 3)⟩

/-- Source line `local v2add = {x=v2a.x+v2b.x, y=v2a.y+v2b.y}`. -/
def tV2add (i : ℤ) : Tbl2 := ⟨ladd (tV2a i).x (tV2b i).x, ladd (tV2a i).y (tV2b i).y⟩

/-- Source line `local v2sub = {x=v2a.x-v2b.x, y=v2a.y-v2b.y}`. -/
def tV2sub (i : ℤ) : Tbl2 := ⟨lsub (tV2a i).x (tV2b i).x, lsub (tV2a i).y (tV2b i).y⟩

/-- Source line `local v2mul = {x=v2a.x*2.0, y=v2a.y*2.0}`. -/
def tV2mul (i : ℤ) : Tbl2 :=
  ⟨lmul (tV2a i).x (.d (dlit 2)), lmul (tV2a i).y (.d (dlit 2))⟩

/-- Source line `local v2div = {x=v2b.x/2.0, y=v2b.y/2.0}`. -/
def tV2div (i : ℤ) : Tbl2 :=
  ⟨ldiv (tV2b i).x (.d (dlit 2)), ldiv (tV2b i).y (.d (dlit 2))⟩

/-- Source line `local v3a = {x=i, y=i+1, z=i+2}`. -/
def tV3a (i : ℤ) : Tbl3 := ⟨.i i, ladd (.i i) (.i 1), ladd (.i i) (.i 2)⟩

/-- Source line `local v3b = {x=i+3, y=i+4, z=i+5}`. -/
def tV3b (i : ℤ) : Tbl3 :=
  ⟨ladd (.i i) (.i 3), ladd (.i i) (.i 4), ladd (.i i) (.i 5)⟩

/-- Source line `local v3add = {x=v3a.x+v3b.x, y=v3a.y+v3b.y, z=v3a.z+v3b.z}`. -/
def tV3add (i : ℤ) : Tbl3 :=
  ⟨ladd (tV3a i).x (tV3b i).x, ladd (tV3a i).y (tV3b i).y, ladd (tV3a i).z (tV3b i).z⟩

/-- Source line `local v3sub = {x=v3a.x-v3b.x, y=v3a.y-v3b.y, z=v3a.z-v3b.z}`. -/
def tV3sub (i : ℤ) : Tbl3 :=
  ⟨lsub (tV3a i).x (tV3b i).x, lsub (tV3a i).y (tV3b i).y, lsub (tV3a i).z (tV3b i).z⟩

/-- Source line `local v3mul = {x=v3a.x*2.0, y=v3a.y*2.0, z=v3a.z*2.0}`. -/
def tV3mul (i : ℤ) : Tbl3 :=
  ⟨lmul (tV3a i).x (.d (dlit 2)), lmul (tV3a i).y (.d (dlit 2)),
    lmul (tV3a i).z (.d (dlit 2))⟩

/-- Source line `local v3div = {x=v3b.x/2.0, y=v3b.y/2.0, z=v3b.z/2.0}`. -/
def tV3div (i : ℤ) : Tbl3 :=
  ⟨ldiv (tV3b i).x (.d (dlit 2)), ldiv (tV3b i).y (.d (dlit 2)),
    ldiv (tV3b i).z (.d (dlit 2))⟩

/-- Source line `local r = {x=i*0.5, y=i*0.3, w=100.0, h=50.0}`. -/
def tRect (i : ℤ) : TblR :=
  ⟨lmul (.i i) (.d (dlit (1 / 2))), lmul (.i i) (.d (dlit (3 / 10))),
    .d (dlit 100), .d (dlit 50)⟩

/-- Source line `local p = {x=i, y=i+1}`. -/
def tPoint (i : ℤ) : Tbl2 := ⟨.i i, ladd (.i i) (.i 1)⟩

/-- The point-in-region conditional of the table script. -/
def tCond (i : ℤ) : Bool :=
  lge (tV2a i).x (tRect i).x && lge (tV2a i).y (tRect i).y

/-- One iteration of the table script's loop body (14 table constructors
per iteration: `v2a v2b v2add v2sub v2mul v2div v3a v3b v3add v3sub v3mul
v3div r p`). -/
def tStep (i : ℤ) (sum : LNum) (al : ℕ) : LNum × ℕ :=
  let sum := ladd (ladd (ladd (ladd sum (tV2add i).x) (tV2sub i).y)
    (tV2mul i).x) (tV2div i).y
  let sum := ladd (ladd (ladd (ladd sum (tV3add i).x) (tV3sub i).y)
    (tV3mul i).z) (tV3div i).x
  let sum := ladd sum (lmul (tRect i).w (tRect i).h)
  let sum := ladd (ladd sum (lmul (tPoint i).x (tPoint i).x))
    (lmul (tPoint i).y (tPoint i).y)
  let sum := if tCond i then ladd sum (.d (dlit 1)) else sum
  (sum, al + 14)

/-- Function `do_work(n)` of the table script, threading the allocation counter. -/
def tRun (n : ℕ) (al : ℕ) : LNum × ℕ :=
  (List.range n).foldl (fun st (k : ℕ) => tStep ((k : ℤ) + 1) st.1 st.2)
    (.d (dlit 0), al)

/-- The sum returned by the table `do_work(n)`. -/
def tDoWork (n : ℕ) : LNum := (tRun n 0).1

/-- The number of Lua-heap allocations the table `do_work(n)` performs. -/
def tAllocCount (n : ℕ) : ℕ := (tRun n 0).2

/-! ## A heap model for the sol2 operator dispatch

Each operator metamethod receives its operands by const reference from the
Lua heap and returns a fresh value, which sol2 places in a new userdata
cell.  The heap is a map from cell ids to stored values plus a fresh-id
counter; applying an operator reads the operand cells and allocates a new
one, leaving every existing cell untouched. -/

/-- A heap of interpreter-owned values of type `α`. -/
structure Heap (α : Type) where
  next : ℕ
  cells : List (ℕ × α)
deriving DecidableEq

/-- The allocated cell ids. -/
def Heap.keys {α : Type} (h : Heap α) : List ℕ := h.cells.map Prod.fst

/-- Read a cell. -/
def Heap.find {α : Type} (h : Heap α) (r : ℕ) : Option α := h.cells.lookup r

/-- Well-formedness: every allocated id is below the fresh counter. -/
def Heap.WF {α : Type} (h : Heap α) : Prop := ∀ k ∈ h.keys, k < h.next

instance {α : Type} (h : Heap α) : Decidable (Heap.WF h) :=
  inferInstanceAs (Decidable (∀ k ∈ h.keys, k < h.next))

/-- Allocate a fresh cell holding `v`; returns the new heap and the new id. -/
def Heap.alloc {α : Type} (h : Heap α) (v : α) : Heap α × ℕ :=
  (⟨h.next + 1, (h.next, v) :: h.cells⟩, h.next)

/-- Which of the four registered operators is dispatched. -/
inductive VOpKind where
  | addK
  | subK
  | mulK
  | divK
deriving DecidableEq

/-- sol2 dispatch of a `Vector2` operator metamethod: look up the operand
cell(s), run the registered lambda, store the returned fresh value. -/
def v2Apply (k : VOpKind) (h : Heap Vector2) (ra : ℕ) (arg : ℕ ⊕ ℚ) :
    Option (Heap Vector2 × ℕ) :=
  match k, arg with
  | .addK, .inl rb =>
    match h.find ra, h.find rb with
    | some a, some b => some (h.alloc (v2AddLam a b))
    | _, _ => none
  | .subK, .inl rb =>
    match h.find ra, h.find rb with
    | some a, some b => some (h.alloc (v2SubLam a b))
    | _, _ => none
  | .mulK, .inr s =>
    match h.find ra with
    | some a => some (h.alloc (v2MulLam a s))
    | none => none
  | .divK, .inr s =>
    match h.find ra with
    | some a => some (h.alloc (v2DivLam a s))
    | none => none
  | _, _ => none

/-- sol2 dispatch of a `Vector3` operator metamethod. -/
def v3Apply (k : VOpKind) (h : Heap Vector3) (ra : ℕ) (arg : ℕ ⊕ ℚ) :
    Option (Heap Vector3 × ℕ) :=
  match k, arg with
  | .addK, .inl rb =>
    match h.find ra, h.find rb with
    | some a, some b => some (h.alloc (v3AddLam a b))
    | _, _ => none
  | .subK, .inl rb =>
    match h.find ra, h.find rb with
    | some a, some b => some (h.alloc (v3SubLam a b))
    | _, _ => none
  | .mulK, .inr s =>
    match h.find ra with
    | some a => some (h.alloc (v3MulLam a s))
    | none => none
  | .divK, .inr s =>
    match h.find ra with
    | some a => some (h.alloc (v3DivLam a s))
    | none => none
  | _, _ => none

/-! ## Spec-side reference value for scenario A (`n = 1`)

A second definition following the spec's words (§4.3 / §8 scenario A),
for comparison with the embedded script: manual step-by-step evaluation of
the fixed formulas at `i = 1` in exact arithmetic.  2D vectors `(1,2)` and
`(3,4)`: accumulate `add.x + sub.y + mul.x + div.y`; 3D vectors `(1,2,3)`
and `(4,5,6)`: accumulate `add.x + sub.y + mul.z + div.x`; rectangle area
`100·50`; point `(1,2)` sum of squares; `+1.0` for the point-in-region
conditional (which holds at `i = 1`). -/
def specManualSum1 : ℚ :=
  ((1 + 3) + (2 - 4) + (1 * 2) + (4 / 2))
    + ((1 + 4) + (2 - 5) + (3 * 2) + (4 / 2))
    + (100 * 50)
    + (1 * 1 + 2 * 2)
    + 1


/-! ## Basic lemmas for the numeric model -/

theorem wrap64_id (z : ℤ) (h1 : -(2 ^ 63) ≤ z) (h2 : z < 2 ^ 63) :
    wrap64 z = z := by
  unfold wrap64
  omega

theorem wrap32_id (z : ℤ) (h1 : -(2 ^ 31) ≤ z) (h2 : z < 2 ^ 31) :
    wrap32 z = z := by
  unfold wrap32
  omega

theorem nlog2Aux_spec (fuel : ℕ) :
    ∀ n : ℕ, n ≤ fuel → 1 ≤ n →
      2 ^ nlog2Aux fuel n ≤ n ∧ n < 2 ^ (nlog2Aux fuel n + 1) := by
  induction fuel with
  | zero => intro n hn h1; omega
  | succ fuel ih =>
    intro n hn h1
    rw [nlog2Aux]
    by_cases hsmall : n ≤ 1
    · simp only [if_pos hsmall]
      constructor <;> simp <;> omega
    · simp only [if_neg hsmall]
      have h2 : 2 ≤ n := by omega
      have hdiv : n / 2 ≤ fuel := by omega
      have hdiv1 : 1 ≤ n / 2 := by omega
      obtain ⟨hlo, hhi⟩ := ih (n / 2) hdiv hdiv1
      constructor
      · have : 2 ^ (nlog2Aux fuel (n / 2) + 1) = 2 * 2 ^ nlog2Aux fuel (n / 2) := by
          ring
        rw [this]
        omega
      · have : 2 ^ (nlog2Aux fuel (n / 2) + 1 + 1) = 2 * 2 ^ (nlog2Aux fuel (n / 2) + 1) := by
          ring
        rw [this]
        omega

theorem nlog2_spec (n : ℕ) (h : 1 ≤ n) :
    2 ^ nlog2 n ≤ n ∧ n < 2 ^ (nlog2 n + 1) :=
  nlog2Aux_spec n n le_rfl h

theorem qlog2_spec (q : ℚ) (hq : 0 < q) :
    (2 : ℚ) ^ qlog2 q ≤ q ∧ q < (2 : ℚ) ^ (qlog2 q + 1) := by
  unfold qlog2
  by_cases h1 : 1 ≤ q
  · simp only [if_pos h1]
    have hfl : 1 ≤ ⌊q⌋ := by exact_mod_cast Int.le_floor.mpr (by exact_mod_cast h1)
    have hfn : 1 ≤ ⌊q⌋.toNat := by omega
    obtain ⟨hlo, hhi⟩ := nlog2_spec ⌊q⌋.toNat hfn
    have hfl_le : (⌊q⌋ : ℚ) ≤ q := Int.floor_le q
    have hq_lt : q < (⌊q⌋ : ℚ) + 1 := Int.lt_floor_add_one q
    have hcastZ : (⌊q⌋.toNat : ℤ) = ⌊q⌋ := Int.toNat_of_nonneg (by omega)
    have hcast : (⌊q⌋.toNat : ℚ) = (⌊q⌋ : ℚ) := by exact_mod_cast hcastZ
    constructor
    · rw [zpow_natCast]
      calc ((2 : ℚ) ^ nlog2 ⌊q⌋.toNat) ≤ (⌊q⌋.toNat : ℚ) := by exact_mod_cast hlo
        _ = (⌊q⌋ : ℚ) := hcast
        _ ≤ q := hfl_le
    · have hstep : (⌊q⌋.toNat : ℚ) + 1 ≤ 2 ^ (nlog2 ⌊q⌋.toNat + 1) := by
        exact_mod_cast Nat.succ_le_of_lt hhi
      calc q < (⌊q⌋.toNat : ℚ) + 1 := by rw [hcast]; exact hq_lt
        _ ≤ 2 ^ (nlog2 ⌊q⌋.toNat + 1) := hstep
        _ = (2 : ℚ) ^ ((nlog2 ⌊q⌋.toNat : ℤ) + 1) := by
            rw [← zpow_natCast (2 : ℚ) (nlog2 ⌊q⌋.toNat + 1)]
            push_cast
            ring_nf
  · simp only [if_neg h1]
    have hqlt : q < 1 := lt_of_not_le h1
    have hr : 1 < q⁻¹ := one_lt_inv_iff₀.mpr ⟨hq, hqlt⟩
    have hfl : 1 ≤ ⌊q⁻¹⌋ := by
      have : (1 : ℚ) ≤ q⁻¹ := le_of_lt hr
      exact_mod_cast Int.le_floor.mpr (by exact_mod_cast this)
    have hfn : 1 ≤ ⌊q⁻¹⌋.toNat := by omega
    obtain ⟨hlo, hhi⟩ := nlog2_spec ⌊q⁻¹⌋.toNat hfn
    set k : ℕ := nlog2 ⌊q⁻¹⌋.toNat with hk
    have hfl_le : (⌊q⁻¹⌋ : ℚ) ≤ q⁻¹ := Int.floor_le _
    have hq_lt : q⁻¹ < (⌊q⁻¹⌋ : ℚ) + 1 := Int.lt_floor_add_one _
    have hcastZ : (⌊q⁻¹⌋.toNat : ℤ) = ⌊q⁻¹⌋ := Int.toNat_of_nonneg (by omega)
    have hcast : (⌊q⁻¹⌋.toNat : ℚ) = (⌊q⁻¹⌋ : ℚ) := by exact_mod_cast hcastZ
    -- `2^k ≤ q⁻¹ < 2^(k+1)` over ℚ
    have hklo : (2 : ℚ) ^ (k : ℕ) ≤ q⁻¹ := by
      calc ((2 : ℚ) ^ (k : ℕ)) ≤ (⌊q⁻¹⌋.toNat : ℚ) := by exact_mod_cast hlo
        _ = (⌊q⁻¹⌋ : ℚ) := hcast
        _ ≤ q⁻¹ := hfl_le
    have hkhi : q⁻¹ < (2 : ℚ) ^ (k + 1 : ℕ) := by
      have hstep : (⌊q⁻¹⌋.toNat : ℚ) + 1 ≤ 2 ^ (k + 1 : ℕ) := by
        exact_mod_cast Nat.succ_le_of_lt hhi
      calc q⁻¹ < (⌊q⁻¹⌋ : ℚ) + 1 := hq_lt
        _ = (⌊q⁻¹⌋.toNat : ℚ) + 1 := by rw [hcast]
        _ ≤ 2 ^ (k + 1 : ℕ) := hstep
    -- hence `2^(-(k+1)) < q ≤ 2^(-k)`
    have h2k_pos : (0 : ℚ) < 2 ^ (k : ℕ) := by positivity
    have hqle : q ≤ (2 : ℚ) ^ (-(k : ℤ)) := by
      rw [zpow_neg, zpow_natCast]
      exact (le_inv_comm₀ hq h2k_pos).mpr hklo
    have hqgt : (2 : ℚ) ^ (-(k : ℤ) - 1) < q := by
      have h1' : ((2 : ℚ) ^ (k + 1 : ℕ))⁻¹ < q := by
        exact (inv_lt_comm₀ (by positivity) hq).mpr hkhi
      calc (2 : ℚ) ^ (-(k : ℤ) - 1) = ((2 : ℚ) ^ ((k : ℤ) + 1))⁻¹ := by
            rw [← zpow_neg]; ring_nf
        _ = ((2 : ℚ) ^ (k + 1 : ℕ))⁻¹ := by
            rw [← zpow_natCast (2 : ℚ) (k + 1)]; push_cast; ring_nf
        _ < q := h1'
    by_cases hcase : (2 : ℚ) ^ (-(k : ℤ)) ≤ q
    · simp only [hk] at hcase ⊢
      rw [if_pos hcase]
      refine ⟨hcase, ?_⟩
      calc q ≤ (2 : ℚ) ^ (-(k : ℤ)) := hqle
        _ < (2 : ℚ) ^ (-(k : ℤ) + 1) := by
            exact (zpow_lt_zpow_iff_right₀ (by norm_num : (1 : ℚ) < 2)).mpr (by omega)
    · simp only [hk] at hcase ⊢
      rw [if_neg hcase]
      constructor
      · calc (2 : ℚ) ^ (-((k : ℤ) + 1)) = (2 : ℚ) ^ (-(k : ℤ) - 1) := by ring_nf
          _ ≤ q := le_of_lt hqgt
      · calc q < (2 : ℚ) ^ (-(k : ℤ)) := lt_of_not_le hcase
          _ = (2 : ℚ) ^ (-((k : ℤ) + 1) + 1) := by ring_nf

theorem rne_intCast (n : ℤ) : rne (n : ℚ) = n := by
  unfold rne
  rw [Int.floor_intCast]
  norm_num

theorem rne_err (x : ℚ) : |(rne x : ℚ) - x| ≤ 1 / 2 := by
  unfold rne
  have hfl : (⌊x⌋ : ℚ) ≤ x := Int.floor_le x
  have hlt : x < (⌊x⌋ : ℚ) + 1 := Int.lt_floor_add_one x
  by_cases h1 : x - ⌊x⌋ < 1 / 2
  · rw [if_pos h1, abs_le]
    constructor <;> linarith
  · rw [if_neg h1]
    by_cases h2 : 1 / 2 < x - ⌊x⌋
    · rw [if_pos h2, abs_le]
      have hcast : ((⌊x⌋ + 1 : ℤ) : ℚ) = (⌊x⌋ : ℚ) + 1 := by push_cast; ring
      rw [hcast]
      constructor <;> linarith
    · rw [if_neg h2]
      have heq : x - ⌊x⌋ = 1 / 2 := le_antisymm (not_lt.mp h2) (not_lt.mp h1)
      have hcast : ((⌊x⌋ + 1 : ℤ) : ℚ) = (⌊x⌋ : ℚ) + 1 := by push_cast; ring
      by_cases h3 : ⌊x⌋ % 2 = 0
      · rw [if_pos h3, abs_le]
        constructor <;> linarith
      · rw [if_neg h3, abs_le, hcast]
        constructor <;> linarith


/-! ## Exactness and error bounds for `fl` -/

theorem flPos_id (p : ℕ) (m e : ℤ) (hm0 : 0 < m) (hm : m < 2 ^ p) :
    flPos p ((m : ℚ) * (2 : ℚ) ^ e) = (m : ℚ) * (2 : ℚ) ^ e := by
  have hmQ : (0 : ℚ) < (m : ℚ) := by exact_mod_cast hm0
  set q : ℚ := (m : ℚ) * (2 : ℚ) ^ e with hqdef
  have hq : 0 < q := by positivity
  obtain ⟨hlo, hhi⟩ := qlog2_spec q hq
  set E : ℤ := qlog2 q with hE
  have hqub : q < (2 : ℚ) ^ ((p : ℤ) + e) := by
    have hmq : (m : ℚ) < (2 : ℚ) ^ (p : ℤ) := by
      rw [zpow_natCast]; exact_mod_cast hm
    calc q = (m : ℚ) * 2 ^ e := rfl
      _ < (2 : ℚ) ^ (p : ℤ) * 2 ^ e :=
          mul_lt_mul_of_pos_right hmq (by positivity)
      _ = (2 : ℚ) ^ ((p : ℤ) + e) := (zpow_add₀ (by norm_num) _ _).symm
  have hElt : E < (p : ℤ) + e := by
    have h2 : (2 : ℚ) ^ E < (2 : ℚ) ^ ((p : ℤ) + e) := lt_of_le_of_lt hlo hqub
    exact (zpow_lt_zpow_iff_right₀ (by norm_num : (1 : ℚ) < 2)).mp h2
  have hk : 0 ≤ e + (p : ℤ) - 1 - E := by omega
  set k : ℕ := (e + (p : ℤ) - 1 - E).toNat with hkdef
  have hkz : (k : ℤ) = e + (p : ℤ) - 1 - E := Int.toNat_of_nonneg hk
  have hscaled : q * (2 : ℚ) ^ ((p : ℤ) - 1 - E) = ((m * 2 ^ k : ℤ) : ℚ) := by
    have hexp : e + ((p : ℤ) - 1 - E) = (k : ℤ) := by omega
    rw [hqdef, mul_assoc, ← zpow_add₀ (by norm_num : (2 : ℚ) ≠ 0), hexp]
    push_cast
    rw [zpow_natCast]
  unfold flPos
  rw [← hE, hscaled, rne_intCast]
  have hexp2 : (k : ℤ) + (E - (p : ℤ) + 1) = e := by omega
  push_cast
  rw [← zpow_natCast (2 : ℚ) k, mul_assoc,
    ← zpow_add₀ (by norm_num : (2 : ℚ) ≠ 0), hexp2]

theorem fl_id (p : ℕ) (m e : ℤ) (hm : |m| < 2 ^ p) :
    fl p ((m : ℚ) * (2 : ℚ) ^ e) = (m : ℚ) * (2 : ℚ) ^ e := by
  have hm2 := abs_lt.mp hm
  rcases lt_trichotomy m 0 with hneg | hzero | hpos
  · have hmQ : (m : ℚ) < 0 := by exact_mod_cast hneg
    have hq : (m : ℚ) * (2 : ℚ) ^ e < 0 :=
      mul_neg_of_neg_of_pos hmQ (by positivity)
    unfold fl
    rw [if_neg (by linarith), if_pos hq]
    have hrw : -((m : ℚ) * (2 : ℚ) ^ e) = ((-m : ℤ) : ℚ) * (2 : ℚ) ^ e := by
      push_cast; ring
    rw [hrw, flPos_id p (-m) e (by omega) (by omega)]
    push_cast; ring
  · subst hzero; simp [fl]
  · have hmQ : (0 : ℚ) < (m : ℚ) := by exact_mod_cast hpos
    have hq : 0 < (m : ℚ) * (2 : ℚ) ^ e := by positivity
    unfold fl
    rw [if_pos hq]
    exact flPos_id p m e hpos (by omega)

/-- Exactness of `fl` on integers below `2^p`. -/
theorem fl_intCast (p : ℕ) (z : ℤ) (h : |z| < 2 ^ p) : fl p (z : ℚ) = (z : ℚ) := by
  have := fl_id p z 0 h
  simpa using this

/-- Exactness of `fl` on half-integers with numerator below `2^p`. -/
theorem fl_half (p : ℕ) (z : ℤ) (h : |z| < 2 ^ p) :
    fl p ((z : ℚ) / 2) = (z : ℚ) / 2 := by
  have := fl_id p z (-1) h
  rw [zpow_neg_one] at this
  rw [div_eq_mul_inv]
  simpa using this

theorem flPos_err (p : ℕ) (q : ℚ) (hq : 0 < q) :
    |flPos p q - q| ≤ q * (2 : ℚ) ^ (-(p : ℤ)) := by
  obtain ⟨hlo, _⟩ := qlog2_spec q hq
  set E : ℤ := qlog2 q with hE
  set s0 : ℚ := q * (2 : ℚ) ^ ((p : ℤ) - 1 - E) with hs0
  have hq_eq : s0 * (2 : ℚ) ^ (E - (p : ℤ) + 1) = q := by
    rw [hs0, mul_assoc, ← zpow_add₀ (by norm_num : (2 : ℚ) ≠ 0)]
    have : (p : ℤ) - 1 - E + (E - (p : ℤ) + 1) = 0 := by ring
    rw [this, zpow_zero, mul_one]
  have hsub : flPos p q - q = ((rne s0 : ℚ) - s0) * (2 : ℚ) ^ (E - (p : ℤ) + 1) := by
    unfold flPos
    rw [← hE, ← hs0, sub_mul, hq_eq]
  calc |flPos p q - q|
      = |(rne s0 : ℚ) - s0| * |(2 : ℚ) ^ (E - (p : ℤ) + 1)| := by rw [hsub, abs_mul]
    _ = |(rne s0 : ℚ) - s0| * (2 : ℚ) ^ (E - (p : ℤ) + 1) := by
        rw [abs_of_pos (a := (2 : ℚ) ^ (E - (p : ℤ) + 1)) (by positivity)]
    _ ≤ (1 / 2) * (2 : ℚ) ^ (E - (p : ℤ) + 1) := by
        exact mul_le_mul_of_nonneg_right (rne_err s0) (by positivity)
    _ = (2 : ℚ) ^ (E - (p : ℤ)) := by
        rw [show E - (p : ℤ) + 1 = (E - (p : ℤ)) + 1 by ring,
          zpow_add₀ (by norm_num : (2 : ℚ) ≠ 0)]
        ring
    _ = (2 : ℚ) ^ E * (2 : ℚ) ^ (-(p : ℤ)) := by
        rw [← zpow_add₀ (by norm_num : (2 : ℚ) ≠ 0)]
        ring_nf
    _ ≤ q * (2 : ℚ) ^ (-(p : ℤ)) :=
        mul_le_mul_of_nonneg_right hlo (by positivity)

theorem fl_err_pos (p : ℕ) (q : ℚ) (hq : 0 < q) :
    |fl p q - q| ≤ q * (2 : ℚ) ^ (-(p : ℤ)) := by
  unfold fl
  rw [if_pos hq]
  exact flPos_err p q hq

/-- Relative upper bound for positive arguments. -/
theorem fl_le (p : ℕ) (q : ℚ) (hq : 0 < q) :
    fl p q ≤ q * (1 + (2 : ℚ) ^ (-(p : ℤ))) := by
  have h := fl_err_pos p q hq
  rw [abs_le] at h
  nlinarith [h.1, h.2]

/-- Relative lower bound for positive arguments. -/
theorem fl_ge (p : ℕ) (q : ℚ) (hq : 0 < q) :
    q * (1 - (2 : ℚ) ^ (-(p : ℤ))) ≤ fl p q := by
  have h := fl_err_pos p q hq
  rw [abs_le] at h
  nlinarith [h.1, h.2]

theorem fl_zero (p : ℕ) : fl p 0 = 0 := by simp [fl]

/-- Rounding a positive value gives a positive value (for `1 ≤ p`). -/
theorem fl_pos (p : ℕ) (hp : 1 ≤ p) (q : ℚ) (hq : 0 < q) : 0 < fl p q := by
  have hb : (2 : ℚ) ^ (-(p : ℤ)) ≤ 1 / 2 := by
    calc (2 : ℚ) ^ (-(p : ℤ)) ≤ (2 : ℚ) ^ (-1 : ℤ) :=
          zpow_le_zpow_right₀ (by norm_num) (by omega)
      _ = 1 / 2 := by norm_num
  have hfac : (0 : ℚ) < 1 - (2 : ℚ) ^ (-(p : ℤ)) := by linarith
  have hge := fl_ge p q hq
  have hprod := mul_pos hq hfac
  linarith

/-! ## Small-value exactness helpers (numeral bounds) -/

unseal Rat.add Rat.mul Rat.inv Rat.sub

theorem fl24_int (z : ℤ) (h1 : -16777216 < z) (h2 : z < 16777216) :
    fl 24 (z : ℚ) = (z : ℚ) :=
  fl_intCast 24 z (abs_lt.mpr ⟨by norm_num; omega, by norm_num; omega⟩)

theorem fl53_int (z : ℤ) (h1 : -9007199254740992 < z) (h2 : z < 9007199254740992) :
    fl 53 (z : ℚ) = (z : ℚ) :=
  fl_intCast 53 z (abs_lt.mpr ⟨by norm_num; omega, by norm_num; omega⟩)

theorem fl24_halfInt (z : ℤ) (h1 : -16777216 < z) (h2 : z < 16777216) :
    fl 24 ((z : ℚ) / 2) = (z : ℚ) / 2 :=
  fl_half 24 z (abs_lt.mpr ⟨by norm_num; omega, by norm_num; omega⟩)

theorem fl53_halfInt (z : ℤ) (h1 : -9007199254740992 < z) (h2 : z < 9007199254740992) :
    fl 53 ((z : ℚ) / 2) = (z : ℚ) / 2 :=
  fl_half 53 z (abs_lt.mpr ⟨by norm_num; omega, by norm_num; omega⟩)

theorem dlit_zero : dlit 0 = 0 := fl_zero 53

theorem dlit_one : dlit 1 = 1 := by
  have h := fl53_int 1 (by norm_num) (by norm_num)
  simpa [dlit] using h

theorem dlit_two : dlit 2 = 2 := by
  have h := fl53_int 2 (by norm_num) (by norm_num)
  simpa [dlit] using h

theorem dlit_100 : dlit 100 = 100 := by
  have h := fl53_int 100 (by norm_num) (by norm_num)
  simpa [dlit] using h

theorem dlit_50 : dlit 50 = 50 := by
  have h := fl53_int 50 (by norm_num) (by norm_num)
  simpa [dlit] using h

theorem dlit_half : dlit (1 / 2) = 1 / 2 := by
  have h := fl_half 53 1 (by norm_num)
  simpa [dlit] using h

/-- The binary64 value of the literal `0.3`
(`0.3` is not exactly representable). -/
theorem dlit_03_val : dlit (3 / 10) = 5404319552844595 / 18014398509481984 := by
  decide

/-- The sol2 `float` scalar produced from the Lua literal `2.0`. -/
theorem scalar_two : d2f (dlit 2) = 2 := by
  rw [dlit_two]
  have h := fl24_int 2 (by norm_num) (by norm_num)
  simpa [d2f] using h

theorem num2f_int (z : ℤ) (h1 : -16777216 < z) (h2 : z < 16777216) :
    num2f (.i z) = (z : ℚ) := by
  simp only [num2f, toD, int2d, d2f]
  rw [fl53_int z (by omega) (by omega), fl24_int z h1 h2]

/-! ## The point-in-region conditional holds on all non-wrapping indices -/

/-- Chained upper bound: converting `i` to binary64, multiplying by the
binary64 constant `c` and rounding (then possibly narrowing to binary32 —
covered by the `fl 24` variant below). -/
theorem chain53_ub (c I : ℚ) (hc : 0 < c) (hI : 0 < I) :
    fl 53 (fl 53 I * c) ≤
      I * c * (1 + (2 : ℚ) ^ (-(53 : ℤ))) * (1 + (2 : ℚ) ^ (-(53 : ℤ))) := by
  have heps : (0 : ℚ) < 1 + (2 : ℚ) ^ (-(53 : ℤ)) := by positivity
  have h1 : fl 53 I ≤ I * (1 + (2 : ℚ) ^ (-(53 : ℤ))) := fl_le 53 I hI
  have h1p : 0 < fl 53 I := fl_pos 53 (by norm_num) I hI
  have h2 : fl 53 I * c ≤ I * (1 + (2 : ℚ) ^ (-(53 : ℤ))) * c :=
    mul_le_mul_of_nonneg_right h1 hc.le
  have h2p : 0 < fl 53 I * c := mul_pos h1p hc
  have h3 : fl 53 (fl 53 I * c) ≤ (fl 53 I * c) * (1 + (2 : ℚ) ^ (-(53 : ℤ))) :=
    fl_le 53 _ h2p
  calc fl 53 (fl 53 I * c)
      ≤ (fl 53 I * c) * (1 + (2 : ℚ) ^ (-(53 : ℤ))) := h3
    _ ≤ (I * (1 + (2 : ℚ) ^ (-(53 : ℤ))) * c) * (1 + (2 : ℚ) ^ (-(53 : ℤ))) :=
        mul_le_mul_of_nonneg_right h2 heps.le
    _ = I * c * (1 + (2 : ℚ) ^ (-(53 : ℤ))) * (1 + (2 : ℚ) ^ (-(53 : ℤ))) := by
        ring

theorem chain53_pos (c I : ℚ) (hc : 0 < c) (hI : 0 < I) :
    0 < fl 53 (fl 53 I * c) :=
  fl_pos 53 (by norm_num) _ (mul_pos (fl_pos 53 (by norm_num) I hI) hc)

theorem chain24_ub (c I : ℚ) (hc : 0 < c) (hI : 0 < I) :
    fl 24 (fl 53 (fl 53 I * c)) ≤
      I * c * (1 + (2 : ℚ) ^ (-(53 : ℤ))) * (1 + (2 : ℚ) ^ (-(53 : ℤ)))
        * (1 + (2 : ℚ) ^ (-(24 : ℤ))) := by
  have heps : (0 : ℚ) < 1 + (2 : ℚ) ^ (-(24 : ℤ)) := by positivity
  have h1 := chain53_ub c I hc hI
  have h1p := chain53_pos c I hc hI
  have h2 : fl 24 (fl 53 (fl 53 I * c)) ≤
      fl 53 (fl 53 I * c) * (1 + (2 : ℚ) ^ (-(24 : ℤ))) := fl_le 24 _ h1p
  calc fl 24 (fl 53 (fl 53 I * c))
      ≤ fl 53 (fl 53 I * c) * (1 + (2 : ℚ) ^ (-(24 : ℤ))) := h2
    _ ≤ (I * c * (1 + (2 : ℚ) ^ (-(53 : ℤ))) * (1 + (2 : ℚ) ^ (-(53 : ℤ))))
          * (1 + (2 : ℚ) ^ (-(24 : ℤ))) :=
        mul_le_mul_of_nonneg_right h1 heps.le

/-- Lower bound for the double-converted loop index `fl 24 (fl 53 I)`. -/
theorem round2_lb (I : ℚ) (hI : 0 < I) :
    I * (1 - (2 : ℚ) ^ (-(53 : ℤ))) * (1 - (2 : ℚ) ^ (-(24 : ℤ)))
      ≤ fl 24 (fl 53 I) := by
  have heps : (0 : ℚ) ≤ 1 - (2 : ℚ) ^ (-(24 : ℤ)) := by
    have : (2 : ℚ) ^ (-(24 : ℤ)) ≤ 1 := by
      calc (2 : ℚ) ^ (-(24 : ℤ)) ≤ (2 : ℚ) ^ (0 : ℤ) :=
            zpow_le_zpow_right₀ (by norm_num) (by omega)
        _ = 1 := by norm_num
    linarith
  have h1 : I * (1 - (2 : ℚ) ^ (-(53 : ℤ))) ≤ fl 53 I := fl_ge 53 I hI
  have h1p : 0 < fl 53 I := fl_pos 53 (by norm_num) I hI
  have h2 : fl 53 I * (1 - (2 : ℚ) ^ (-(24 : ℤ))) ≤ fl 24 (fl 53 I) :=
    fl_ge 24 _ h1p
  calc I * (1 - (2 : ℚ) ^ (-(53 : ℤ))) * (1 - (2 : ℚ) ^ (-(24 : ℤ)))
      ≤ fl 53 I * (1 - (2 : ℚ) ^ (-(24 : ℤ))) :=
        mul_le_mul_of_nonneg_right h1 heps
    _ ≤ fl 24 (fl 53 I) := h2

/-! ## Constructor-level reduction lemmas for `LNum` operations -/

theorem ladd_ii (a b : ℤ) : ladd (.i a) (.i b) = .i (wrap64 (a + b)) := rfl

/-- A float left operand forces the float branch of Lua `+` whatever the
right operand is. -/
theorem ladd_d_any (q : ℚ) (x : LNum) : ladd (.d q) x = .d (dadd q (toD x)) := rfl

theorem ladd_di (q : ℚ) (b : ℤ) : ladd (.d q) (.i b) = .d (dadd q (int2d b)) := rfl

theorem ladd_dd (q r : ℚ) : ladd (.d q) (.d r) = .d (dadd q r) := rfl

theorem lsub_ii (a b : ℤ) : lsub (.i a) (.i b) = .i (wrap64 (a - b)) := rfl

theorem lmul_ii (a b : ℤ) : lmul (.i a) (.i b) = .i (wrap64 (a * b)) := rfl

theorem lmul_id (a : ℤ) (q : ℚ) : lmul (.i a) (.d q) = .d (dmul (int2d a) q) := rfl

theorem lmul_dd (q r : ℚ) : lmul (.d q) (.d r) = .d (dmul q r) := rfl

theorem ldiv_id (a : ℤ) (q : ℚ) : ldiv (.i a) (.d q) = .d (ddiv (int2d a) q) := rfl

theorem num2f_d (q : ℚ) : num2f (.d q) = d2f q := rfl

theorem lge_dd (a b : ℚ) : lge (.d a) (.d b) = decide (b ≤ a) := rfl

theorem lge_id (a : ℤ) (q : ℚ) : lge (.i a) (.d q) = decide (q ≤ (a : ℚ)) := rfl

/-! ## The point-in-region conditional is true on every non-wrapping index -/

theorem uCond_true (i : ℤ) (h1 : 1 ≤ i) (h2 : i ≤ 2 ^ 63 - 2) :
    uCond i = true := by
  have hwrap : wrap64 (i + 1) = i + 1 := wrap64_id _ (by omega) (by omega)
  have hI : (0 : ℚ) < (i : ℚ) := by exact_mod_cast h1
  have hI1 : (1 : ℚ) ≤ (i : ℚ) := by exact_mod_cast h1
  have hd03 : dlit (3 / 10) = 5404319552844595 / 18014398509481984 := dlit_03_val
  unfold uCond uV2a uRect
  rw [ladd_ii, hwrap, lmul_id, lmul_id]
  simp only [mkVector2, mkRectF, num2f_d, num2f, toD, int2d, d2f, dmul, lge_dd,
    Bool.and_eq_true, decide_eq_true_eq, dlit_half, hd03]
  constructor
  · -- x: fl24(fl53(fl53 i * 0.5)) ≤ fl24(fl53 i)
    have hub := chain24_ub (1 / 2) (i : ℚ) (by norm_num) hI
    have hlb := round2_lb (i : ℚ) hI
    have hK : (i : ℚ) * (1 / 2) * (1 + (2 : ℚ) ^ (-(53 : ℤ)))
          * (1 + (2 : ℚ) ^ (-(53 : ℤ))) * (1 + (2 : ℚ) ^ (-(24 : ℤ)))
        ≤ (i : ℚ) * (1 - (2 : ℚ) ^ (-(53 : ℤ))) * (1 - (2 : ℚ) ^ (-(24 : ℤ))) := by
      have hnum : (1 / 2 : ℚ) * ((1 + (2 : ℚ) ^ (-(53 : ℤ)))
            * ((1 + (2 : ℚ) ^ (-(53 : ℤ))) * (1 + (2 : ℚ) ^ (-(24 : ℤ)))))
          ≤ (1 - (2 : ℚ) ^ (-(53 : ℤ))) * (1 - (2 : ℚ) ^ (-(24 : ℤ))) := by
        norm_num
      calc (i : ℚ) * (1 / 2) * (1 + (2 : ℚ) ^ (-(53 : ℤ)))
            * (1 + (2 : ℚ) ^ (-(53 : ℤ))) * (1 + (2 : ℚ) ^ (-(24 : ℤ)))
          = (i : ℚ) * ((1 / 2) * ((1 + (2 : ℚ) ^ (-(53 : ℤ)))
              * ((1 + (2 : ℚ) ^ (-(53 : ℤ))) * (1 + (2 : ℚ) ^ (-(24 : ℤ)))))) := by
            ring
        _ ≤ (i : ℚ) * ((1 - (2 : ℚ) ^ (-(53 : ℤ))) * (1 - (2 : ℚ) ^ (-(24 : ℤ)))) :=
            mul_le_mul_of_nonneg_left hnum hI.le
        _ = (i : ℚ) * (1 - (2 : ℚ) ^ (-(53 : ℤ))) * (1 - (2 : ℚ) ^ (-(24 : ℤ))) := by
            ring
    exact le_trans hub (le_trans hK hlb)
  · -- y: fl24(fl53(fl53 i * 0.3)) ≤ fl24(fl53 (i+1))
    have hub := chain24_ub (5404319552844595 / 18014398509481984) (i : ℚ)
      (by norm_num) hI
    have hIp1 : (0 : ℚ) < (i : ℚ) + 1 := by linarith
    have hlb := round2_lb ((i : ℚ) + 1) hIp1
    have hK2pos : (0 : ℚ) ≤ (1 - (2 : ℚ) ^ (-(53 : ℤ))) * (1 - (2 : ℚ) ^ (-(24 : ℤ))) := by
      norm_num
    have hstep1 : (i : ℚ) * (5404319552844595 / 18014398509481984)
          * (1 + (2 : ℚ) ^ (-(53 : ℤ))) * (1 + (2 : ℚ) ^ (-(53 : ℤ)))
          * (1 + (2 : ℚ) ^ (-(24 : ℤ)))
        ≤ (i : ℚ) * ((1 - (2 : ℚ) ^ (-(53 : ℤ))) * (1 - (2 : ℚ) ^ (-(24 : ℤ)))) := by
      have hnum : (5404319552844595 / 18014398509481984 : ℚ)
            * ((1 + (2 : ℚ) ^ (-(53 : ℤ)))
              * ((1 + (2 : ℚ) ^ (-(53 : ℤ))) * (1 + (2 : ℚ) ^ (-(24 : ℤ)))))
          ≤ (1 - (2 : ℚ) ^ (-(53 : ℤ))) * (1 - (2 : ℚ) ^ (-(24 : ℤ))) := by
        norm_num
      calc (i : ℚ) * (5404319552844595 / 18014398509481984)
            * (1 + (2 : ℚ) ^ (-(53 : ℤ))) * (1 + (2 : ℚ) ^ (-(53 : ℤ)))
            * (1 + (2 : ℚ) ^ (-(24 : ℤ)))
          = (i : ℚ) * ((5404319552844595 / 18014398509481984)
              * ((1 + (2 : ℚ) ^ (-(53 : ℤ)))
                * ((1 + (2 : ℚ) ^ (-(53 : ℤ))) * (1 + (2 : ℚ) ^ (-(24 : ℤ)))))) := by
            ring
        _ ≤ (i : ℚ) * ((1 - (2 : ℚ) ^ (-(53 : ℤ))) * (1 - (2 : ℚ) ^ (-(24 : ℤ)))) :=
            mul_le_mul_of_nonneg_left hnum hI.le
    have hstep2 : (i : ℚ) * ((1 - (2 : ℚ) ^ (-(53 : ℤ))) * (1 - (2 : ℚ) ^ (-(24 : ℤ))))
        ≤ ((i : ℚ) + 1) * ((1 - (2 : ℚ) ^ (-(53 : ℤ))) * (1 - (2 : ℚ) ^ (-(24 : ℤ)))) :=
      mul_le_mul_of_nonneg_right (by linarith) hK2pos
    have hlb2 : ((i : ℚ) + 1) * ((1 - (2 : ℚ) ^ (-(53 : ℤ))) * (1 - (2 : ℚ) ^ (-(24 : ℤ))))
        ≤ fl 24 (fl 53 ((i : ℚ) + 1)) := by
      calc ((i : ℚ) + 1) * ((1 - (2 : ℚ) ^ (-(53 : ℤ))) * (1 - (2 : ℚ) ^ (-(24 : ℤ))))
          = ((i : ℚ) + 1) * (1 - (2 : ℚ) ^ (-(53 : ℤ))) * (1 - (2 : ℚ) ^ (-(24 : ℤ))) := by
            ring
        _ ≤ fl 24 (fl 53 ((i : ℚ) + 1)) := hlb
    have hcast : ((i + 1 : ℤ) : ℚ) = (i : ℚ) + 1 := by push_cast; ring
    rw [hcast]
    exact le_trans hub (le_trans hstep1 (le_trans hstep2 hlb2))

theorem tCond_true (i : ℤ) (h1 : 1 ≤ i) (h2 : i ≤ 2 ^ 63 - 2) :
    tCond i = true := by
  have hwrap : wrap64 (i + 1) = i + 1 := wrap64_id _ (by omega) (by omega)
  have hI : (0 : ℚ) < (i : ℚ) := by exact_mod_cast h1
  have hd03 : dlit (3 / 10) = 5404319552844595 / 18014398509481984 := dlit_03_val
  unfold tCond tV2a tRect
  rw [ladd_ii, hwrap, lmul_id, lmul_id]
  simp only [toD, int2d, dmul, lge_id, Bool.and_eq_true, decide_eq_true_eq,
    dlit_half, hd03]
  constructor
  · -- x: fl53(fl53 i * 0.5) ≤ i
    have hub := chain53_ub (1 / 2) (i : ℚ) (by norm_num) hI
    have hK : (i : ℚ) * (1 / 2) * (1 + (2 : ℚ) ^ (-(53 : ℤ)))
          * (1 + (2 : ℚ) ^ (-(53 : ℤ))) ≤ (i : ℚ) := by
      have hnum : (1 / 2 : ℚ) * ((1 + (2 : ℚ) ^ (-(53 : ℤ)))
            * (1 + (2 : ℚ) ^ (-(53 : ℤ)))) ≤ 1 := by norm_num
      calc (i : ℚ) * (1 / 2) * (1 + (2 : ℚ) ^ (-(53 : ℤ)))
            * (1 + (2 : ℚ) ^ (-(53 : ℤ)))
          = (i : ℚ) * ((1 / 2) * ((1 + (2 : ℚ) ^ (-(53 : ℤ)))
              * (1 + (2 : ℚ) ^ (-(53 : ℤ))))) := by ring
        _ ≤ (i : ℚ) * 1 := mul_le_mul_of_nonneg_left hnum hI.le
        _ = (i : ℚ) := by ring
    exact le_trans hub hK
  · -- y: fl53(fl53 i * 0.3) ≤ i + 1
    have hub := chain53_ub (5404319552844595 / 18014398509481984) (i : ℚ)
      (by norm_num) hI
    have hK : (i : ℚ) * (5404319552844595 / 18014398509481984)
          * (1 + (2 : ℚ) ^ (-(53 : ℤ))) * (1 + (2 : ℚ) ^ (-(53 : ℤ)))
        ≤ (i : ℚ) := by
      have hnum : (5404319552844595 / 18014398509481984 : ℚ)
            * ((1 + (2 : ℚ) ^ (-(53 : ℤ))) * (1 + (2 : ℚ) ^ (-(53 : ℤ)))) ≤ 1 := by
        norm_num
      calc (i : ℚ) * (5404319552844595 / 18014398509481984)
            * (1 + (2 : ℚ) ^ (-(53 : ℤ))) * (1 + (2 : ℚ) ^ (-(53 : ℤ)))
          = (i : ℚ) * ((5404319552844595 / 18014398509481984)
              * ((1 + (2 : ℚ) ^ (-(53 : ℤ))) * (1 + (2 : ℚ) ^ (-(53 : ℤ))))) := by
            ring
        _ ≤ (i : ℚ) * 1 := mul_le_mul_of_nonneg_left hnum hI.le
        _ = (i : ℚ) := by ring
    have hcast : ((i + 1 : ℤ) : ℚ) = (i : ℚ) + 1 := by push_cast; ring
    rw [hcast]
    have hplus : (i : ℚ) ≤ (i : ℚ) + 1 := by linarith
    exact le_trans hub (le_trans hK hplus)

/-! ## Evaluation of the per-iteration locals for `1 ≤ i ≤ 10000`

On this range every intermediate value of both scripts is exactly
representable at its storage precision (binary32 for struct fields,
binary64 for Lua floats, no 64-bit or 32-bit integer wrap), so both
scripts compute the same exact rationals. -/

theorem int2d_small (z : ℤ) (h1 : -9007199254740992 < z) (h2 : z < 9007199254740992) :
    int2d z = (z : ℚ) := fl53_int z h1 h2

theorem uV2a_eval (i : ℤ) (h1 : 1 ≤ i) (h2 : i ≤ 10000) :
    uV2a i = ⟨(i : ℚ), ((i + 1 : ℤ) : ℚ)⟩ := by
  unfold uV2a mkVector2
  rw [ladd_ii, wrap64_id (i + 1) (by omega) (by omega),
    num2f_int i (by omega) (by omega), num2f_int (i + 1) (by omega) (by omega)]

theorem uV2b_eval (i : ℤ) (h1 : 1 ≤ i) (h2 : i ≤ 10000) :
    uV2b i = ⟨((i + 2 : ℤ) : ℚ), ((i + 3 : ℤ) : ℚ)⟩ := by
  unfold uV2b mkVector2
  rw [ladd_ii, ladd_ii, wrap64_id (i + 2) (by omega) (by omega),
    wrap64_id (i + 3) (by omega) (by omega),
    num2f_int (i + 2) (by omega) (by omega), num2f_int (i + 3) (by omega) (by omega)]

theorem uV2add_eval (i : ℤ) (h1 : 1 ≤ i) (h2 : i ≤ 10000) :
    uV2add i = ⟨((2 * i + 2 : ℤ) : ℚ), ((2 * i + 4 : ℤ) : ℚ)⟩ := by
  unfold uV2add v2AddLam
  rw [uV2a_eval i h1 h2, uV2b_eval i h1 h2]
  dsimp only
  have e1 : (i : ℚ) + ((i + 2 : ℤ) : ℚ) = ((2 * i + 2 : ℤ) : ℚ) := by push_cast; ring
  have e2 : ((i + 1 : ℤ) : ℚ) + ((i + 3 : ℤ) : ℚ) = ((2 * i + 4 : ℤ) : ℚ) := by
    push_cast; ring
  rw [e1, e2, fl24_int _ (by omega) (by omega), fl24_int _ (by omega) (by omega)]

theorem uV2sub_eval (i : ℤ) (h1 : 1 ≤ i) (h2 : i ≤ 10000) :
    uV2sub i = ⟨((-2 : ℤ) : ℚ), ((-2 : ℤ) : ℚ)⟩ := by
  unfold uV2sub v2SubLam
  rw [uV2a_eval i h1 h2, uV2b_eval i h1 h2]
  dsimp only
  have e1 : (i : ℚ) - ((i + 2 : ℤ) : ℚ) = ((-2 : ℤ) : ℚ) := by push_cast; ring
  have e2 : ((i + 1 : ℤ) : ℚ) - ((i + 3 : ℤ) : ℚ) = ((-2 : ℤ) : ℚ) := by
    push_cast; ring
  rw [e1, e2, fl24_int _ (by omega) (by omega)]

theorem uV2mul_eval (i : ℤ) (h1 : 1 ≤ i) (h2 : i ≤ 10000) :
    uV2mul i = ⟨((2 * i : ℤ) : ℚ), ((2 * i + 2 : ℤ) : ℚ)⟩ := by
  unfold uV2mul v2MulLam
  rw [scalar_two, uV2a_eval i h1 h2]
  dsimp only
  have e1 : (i : ℚ) * 2 = ((2 * i : ℤ) : ℚ) := by push_cast; ring
  have e2 : ((i + 1 : ℤ) : ℚ) * 2 = ((2 * i + 2 : ℤ) : ℚ) := by push_cast; ring
  rw [e1, e2, fl24_int _ (by omega) (by omega), fl24_int _ (by omega) (by omega)]

theorem uV2div_eval (i : ℤ) (h1 : 1 ≤ i) (h2 : i ≤ 10000) :
    uV2div i = ⟨((i + 2 : ℤ) : ℚ) / 2, ((i + 3 : ℤ) : ℚ) / 2⟩ := by
  unfold uV2div v2DivLam
  rw [scalar_two, uV2b_eval i h1 h2]
  dsimp only
  rw [fl24_halfInt (i + 2) (by omega) (by omega),
    fl24_halfInt (i + 3) (by omega) (by omega)]

theorem uV3a_eval (i : ℤ) (h1 : 1 ≤ i) (h2 : i ≤ 10000) :
    uV3a i = ⟨(i : ℚ), ((i + 1 : ℤ) : ℚ), ((i + 2 : ℤ) : ℚ)⟩ := by
  unfold uV3a mkVector3
  rw [ladd_ii, ladd_ii, wrap64_id (i + 1) (by omega) (by omega),
    wrap64_id (i + 2) (by omega) (by omega),
    num2f_int i (by omega) (by omega), num2f_int (i + 1) (by omega) (by omega),
    num2f_int (i + 2) (by omega) (by omega)]

theorem uV3b_eval (i : ℤ) (h1 : 1 ≤ i) (h2 : i ≤ 10000) :
    uV3b i = ⟨((i + 3 : ℤ) : ℚ), ((i + 4 : ℤ) : ℚ), ((i + 5 : ℤ) : ℚ)⟩ := by
  unfold uV3b mkVector3
  rw [ladd_ii, ladd_ii, ladd_ii, wrap64_id (i + 3) (by omega) (by omega),
    wrap64_id (i + 4) (by omega) (by omega), wrap64_id (i + 5) (by omega) (by omega),
    num2f_int (i + 3) (by omega) (by omega), num2f_int (i + 4) (by omega) (by omega),
    num2f_int (i + 5) (by omega) (by omega)]

theorem uV3add_eval (i : ℤ) (h1 : 1 ≤ i) (h2 : i ≤ 10000) :
    uV3add i = ⟨((2 * i + 3 : ℤ) : ℚ), ((2 * i + 5 : ℤ) : ℚ), ((2 * i + 7 : ℤ) : ℚ)⟩ := by
  unfold uV3add v3AddLam
  rw [uV3a_eval i h1 h2, uV3b_eval i h1 h2]
  dsimp only
  have e1 : (i : ℚ) + ((i + 3 : ℤ) : ℚ) = ((2 * i + 3 : ℤ) : ℚ) := by push_cast; ring
  have e2 : ((i + 1 : ℤ) : ℚ) + ((i + 4 : ℤ) : ℚ) = ((2 * i + 5 : ℤ) : ℚ) := by
    push_cast; ring
  have e3 : ((i + 2 : ℤ) : ℚ) + ((i + 5 : ℤ) : ℚ) = ((2 * i + 7 : ℤ) : ℚ) := by
    push_cast; ring
  rw [e1, e2, e3, fl24_int _ (by omega) (by omega), fl24_int _ (by omega) (by omega),
    fl24_int _ (by omega) (by omega)]

theorem uV3sub_eval (i : ℤ) (h1 : 1 ≤ i) (h2 : i ≤ 10000) :
    uV3sub i = ⟨((-3 : ℤ) : ℚ), ((-3 : ℤ) : ℚ), ((-3 : ℤ) : ℚ)⟩ := by
  unfold uV3sub v3SubLam
  rw [uV3a_eval i h1 h2, uV3b_eval i h1 h2]
  dsimp only
  have e1 : (i : ℚ) - ((i + 3 : ℤ) : ℚ) = ((-3 : ℤ) : ℚ) := by push_cast; ring
  have e2 : ((i + 1 : ℤ) : ℚ) - ((i + 4 : ℤ) : ℚ) = ((-3 : ℤ) : ℚ) := by
    push_cast; ring
  have e3 : ((i + 2 : ℤ) : ℚ) - ((i + 5 : ℤ) : ℚ) = ((-3 : ℤ) : ℚ) := by
    push_cast; ring
  rw [e1, e2, e3, fl24_int _ (by omega) (by omega)]

theorem uV3mul_eval (i : ℤ) (h1 : 1 ≤ i) (h2 : i ≤ 10000) :
    uV3mul i = ⟨((2 * i : ℤ) : ℚ), ((2 * i + 2 : ℤ) : ℚ), ((2 * i + 4 : ℤ) : ℚ)⟩ := by
  unfold uV3mul v3MulLam
  rw [scalar_two, uV3a_eval i h1 h2]
  dsimp only
  have e1 : (i : ℚ) * 2 = ((2 * i : ℤ) : ℚ) := by push_cast; ring
  have e2 : ((i + 1 : ℤ) : ℚ) * 2 = ((2 * i + 2 : ℤ) : ℚ) := by push_cast; ring
  have e3 : ((i + 2 : ℤ) : ℚ) * 2 = ((2 * i + 4 : ℤ) : ℚ) := by push_cast; ring
  rw [e1, e2, e3, fl24_int _ (by omega) (by omega), fl24_int _ (by omega) (by omega),
    fl24_int _ (by omega) (by omega)]

theorem uV3div_eval (i : ℤ) (h1 : 1 ≤ i) (h2 : i ≤ 10000) :
    uV3div i = ⟨((i + 3 : ℤ) : ℚ) / 2, ((i + 4 : ℤ) : ℚ) / 2, ((i + 5 : ℤ) : ℚ) / 2⟩ := by
  unfold uV3div v3DivLam
  rw [scalar_two, uV3b_eval i h1 h2]
  dsimp only
  rw [fl24_halfInt (i + 3) (by omega) (by omega),
    fl24_halfInt (i + 4) (by omega) (by omega),
    fl24_halfInt (i + 5) (by omega) (by omega)]

theorem uRect_w (i : ℤ) : (uRect i).w = 100 := by
  unfold uRect mkRectF
  dsimp only
  rw [num2f_d, dlit_100]
  have h := fl24_int 100 (by norm_num) (by norm_num)
  simpa [d2f] using h

theorem uRect_h (i : ℤ) : (uRect i).h = 50 := by
  unfold uRect mkRectF
  dsimp only
  rw [num2f_d, dlit_50]
  have h := fl24_int 50 (by norm_num) (by norm_num)
  simpa [d2f] using h

theorem uPoint_eval (i : ℤ) (h1 : 1 ≤ i) (h2 : i ≤ 10000) :
    uPoint i = ⟨i, i + 1⟩ := by
  unfold uPoint mkPoint
  rw [ladd_ii, wrap64_id (i + 1) (by omega) (by omega)]
  dsimp only [num2i32]
  rw [wrap32_id i (by omega) (by omega), wrap32_id (i + 1) (by omega) (by omega)]

theorem tV2a_eval (i : ℤ) (h1 : 1 ≤ i) (h2 : i ≤ 10000) :
    tV2a i = ⟨.i i, .i (i + 1)⟩ := by
  unfold tV2a
  rw [ladd_ii, wrap64_id (i + 1) (by omega) (by omega)]

theorem tV2b_eval (i : ℤ) (h1 : 1 ≤ i) (h2 : i ≤ 10000) :
    tV2b i = ⟨.i (i + 2), .i (i + 3)⟩ := by
  unfold tV2b
  rw [ladd_ii, ladd_ii, wrap64_id (i + 2) (by omega) (by omega),
    wrap64_id (i + 3) (by omega) (by omega)]

theorem tV2add_eval (i : ℤ) (h1 : 1 ≤ i) (h2 : i ≤ 10000) :
    tV2add i = ⟨.i (2 * i + 2), .i (2 * i + 4)⟩ := by
  unfold tV2add
  rw [tV2a_eval i h1 h2, tV2b_eval i h1 h2]
  dsimp only
  rw [ladd_ii, ladd_ii, wrap64_id _ (by omega) (by omega),
    wrap64_id _ (by omega) (by omega)]
  norm_num
  constructor <;> ring

theorem tV2sub_eval (i : ℤ) (h1 : 1 ≤ i) (h2 : i ≤ 10000) :
    tV2sub i = ⟨.i (-2), .i (-2)⟩ := by
  unfold tV2sub
  rw [tV2a_eval i h1 h2, tV2b_eval i h1 h2]
  dsimp only
  rw [lsub_ii, lsub_ii, wrap64_id _ (by omega) (by omega),
    wrap64_id _ (by omega) (by omega)]
  norm_num

theorem tV2mul_eval (i : ℤ) (h1 : 1 ≤ i) (h2 : i ≤ 10000) :
    tV2mul i = ⟨.d ((2 * i : ℤ) : ℚ), .d ((2 * i + 2 : ℤ) : ℚ)⟩ := by
  unfold tV2mul
  rw [tV2a_eval i h1 h2]
  dsimp only
  rw [lmul_id, lmul_id, dlit_two, int2d_small i (by omega) (by omega),
    int2d_small (i + 1) (by omega) (by omega)]
  unfold dmul
  have e1 : (i : ℚ) * 2 = ((2 * i : ℤ) : ℚ) := by push_cast; ring
  have e2 : ((i + 1 : ℤ) : ℚ) * 2 = ((2 * i + 2 : ℤ) : ℚ) := by push_cast; ring
  rw [e1, e2, fl53_int _ (by omega) (by omega), fl53_int _ (by omega) (by omega)]

theorem tV2div_eval (i : ℤ) (h1 : 1 ≤ i) (h2 : i ≤ 10000) :
    tV2div i = ⟨.d (((i + 2 : ℤ) : ℚ) / 2), .d (((i + 3 : ℤ) : ℚ) / 2)⟩ := by
  unfold tV2div
  rw [tV2b_eval i h1 h2]
  dsimp only
  rw [ldiv_id, ldiv_id, dlit_two, int2d_small (i + 2) (by omega) (by omega),
    int2d_small (i + 3) (by omega) (by omega)]
  unfold ddiv
  rw [fl53_halfInt (i + 2) (by omega) (by omega),
    fl53_halfInt (i + 3) (by omega) (by omega)]

theorem tV3a_eval (i : ℤ) (h1 : 1 ≤ i) (h2 : i ≤ 10000) :
    tV3a i = ⟨.i i, .i (i + 1), .i (i + 2)⟩ := by
  unfold tV3a
  rw [ladd_ii, ladd_ii, wrap64_id (i + 1) (by omega) (by omega),
    wrap64_id (i + 2) (by omega) (by omega)]

theorem tV3b_eval (i : ℤ) (h1 : 1 ≤ i) (h2 : i ≤ 10000) :
    tV3b i = ⟨.i (i + 3), .i (i + 4), .i (i + 5)⟩ := by
  unfold tV3b
  rw [ladd_ii, ladd_ii, ladd_ii, wrap64_id (i + 3) (by omega) (by omega),
    wrap64_id (i + 4) (by omega) (by omega), wrap64_id (i + 5) (by omega) (by omega)]

theorem tV3add_eval (i : ℤ) (h1 : 1 ≤ i) (h2 : i ≤ 10000) :
    tV3add i = ⟨.i (2 * i + 3), .i (2 * i + 5), .i (2 * i + 7)⟩ := by
  unfold tV3add
  rw [tV3a_eval i h1 h2, tV3b_eval i h1 h2]
  dsimp only
  rw [ladd_ii, ladd_ii, ladd_ii, wrap64_id _ (by omega) (by omega),
    wrap64_id _ (by omega) (by omega), wrap64_id _ (by omega) (by omega)]
  norm_num
  refine ⟨by ring, by ring, by ring⟩

theorem tV3sub_eval (i : ℤ) (h1 : 1 ≤ i) (h2 : i ≤ 10000) :
    tV3sub i = ⟨.i (-3), .i (-3), .i (-3)⟩ := by
  unfold tV3sub
  rw [tV3a_eval i h1 h2, tV3b_eval i h1 h2]
  dsimp only
  rw [lsub_ii, lsub_ii, lsub_ii, wrap64_id _ (by omega) (by omega),
    wrap64_id _ (by omega) (by omega), wrap64_id _ (by omega) (by omega)]
  norm_num

theorem tV3mul_eval (i : ℤ) (h1 : 1 ≤ i) (h2 : i ≤ 10000) :
    tV3mul i = ⟨.d ((2 * i : ℤ) : ℚ), .d ((2 * i + 2 : ℤ) : ℚ), .d ((2 * i + 4 : ℤ) : ℚ)⟩ := by
  unfold tV3mul
  rw [tV3a_eval i h1 h2]
  dsimp only
  rw [lmul_id, lmul_id, lmul_id, dlit_two, int2d_small i (by omega) (by omega),
    int2d_small (i + 1) (by omega) (by omega), int2d_small (i + 2) (by omega) (by omega)]
  unfold dmul
  have e1 : (i : ℚ) * 2 = ((2 * i : ℤ) : ℚ) := by push_cast; ring
  have e2 : ((i + 1 : ℤ) : ℚ) * 2 = ((2 * i + 2 : ℤ) : ℚ) := by push_cast; ring
  have e3 : ((i + 2 : ℤ) : ℚ) * 2 = ((2 * i + 4 : ℤ) : ℚ) := by push_cast; ring
  rw [e1, e2, e3, fl53_int _ (by omega) (by omega), fl53_int _ (by omega) (by omega),
    fl53_int _ (by omega) (by omega)]

theorem tV3div_eval (i : ℤ) (h1 : 1 ≤ i) (h2 : i ≤ 10000) :
    tV3div i = ⟨.d (((i + 3 : ℤ) : ℚ) / 2), .d (((i + 4 : ℤ) : ℚ) / 2),
      .d (((i + 5 : ℤ) : ℚ) / 2)⟩ := by
  unfold tV3div
  rw [tV3b_eval i h1 h2]
  dsimp only
  rw [ldiv_id, ldiv_id, ldiv_id, dlit_two, int2d_small (i + 3) (by omega) (by omega),
    int2d_small (i + 4) (by omega) (by omega), int2d_small (i + 5) (by omega) (by omega)]
  unfold ddiv
  rw [fl53_halfInt (i + 3) (by omega) (by omega),
    fl53_halfInt (i + 4) (by omega) (by omega),
    fl53_halfInt (i + 5) (by omega) (by omega)]

theorem tPoint_eval (i : ℤ) (h1 : 1 ≤ i) (h2 : i ≤ 10000) :
    tPoint i = ⟨.i i, .i (i + 1)⟩ := by
  unfold tPoint
  rw [ladd_ii, wrap64_id (i + 1) (by omega) (by omega)]

theorem tRect_w (i : ℤ) : (tRect i).w = .d (dlit 100) := rfl

theorem tRect_h (i : ℤ) : (tRect i).h = .d (dlit 50) := rfl

/-! ## Per-iteration equality of the two scripts on `1 ≤ i ≤ 10000` -/

theorem step_eq (i : ℤ) (q : ℚ) (alu alt : ℕ) (h1 : 1 ≤ i) (h2 : i ≤ 10000) :
    (uStep i (.d q) alu).1 = (tStep i (.d q) alt).1 := by
  have hw1 : wrap64 (i * i) = i * i :=
    wrap64_id _ (by nlinarith) (by nlinarith)
  have hw2 : wrap64 ((i + 1) * (i + 1)) = (i + 1) * (i + 1) :=
    wrap64_id _ (by nlinarith) (by nlinarith)
  have hd1 : int2d (i * i) = ((i * i : ℤ) : ℚ) :=
    int2d_small _ (by nlinarith) (by nlinarith)
  have hd2 : int2d ((i + 1) * (i + 1)) = (((i + 1) * (i + 1) : ℤ) : ℚ) :=
    int2d_small _ (by nlinarith) (by nlinarith)
  have hd3 : int2d (2 * i + 2) = ((2 * i + 2 : ℤ) : ℚ) :=
    int2d_small _ (by omega) (by omega)
  have hd4 : int2d (2 * i + 4) = ((2 * i + 4 : ℤ) : ℚ) :=
    int2d_small _ (by omega) (by omega)
  have hd5 : int2d (-2) = ((-2 : ℤ) : ℚ) :=
    int2d_small _ (by omega) (by omega)
  have hd6 : int2d (2 * i + 3) = ((2 * i + 3 : ℤ) : ℚ) :=
    int2d_small _ (by omega) (by omega)
  have hd7 : int2d (-3) = ((-3 : ℤ) : ℚ) :=
    int2d_small _ (by omega) (by omega)
  simp only [uStep, tStep]
  rw [uV2add_eval i h1 h2, uV2sub_eval i h1 h2, uV2mul_eval i h1 h2,
    uV2div_eval i h1 h2, uV3add_eval i h1 h2, uV3sub_eval i h1 h2,
    uV3mul_eval i h1 h2, uV3div_eval i h1 h2, uRect_w, uRect_h,
    uPoint_eval i h1 h2, tV2add_eval i h1 h2, tV2sub_eval i h1 h2,
    tV2mul_eval i h1 h2, tV2div_eval i h1 h2, tV3add_eval i h1 h2,
    tV3sub_eval i h1 h2, tV3mul_eval i h1 h2, tV3div_eval i h1 h2,
    tRect_w i, tRect_h i, tPoint_eval i h1 h2,
    uCond_true i h1 (by omega), tCond_true i h1 (by omega)]
  dsimp only
  simp only [ladd_d_any, toD, lmul_ii, lmul_dd, hw1, hw2, hd1, hd2, hd3, hd4,
    hd5, hd6, hd7, dlit_100, dlit_50, if_true]

/-- The usertype step on a float accumulator yields a float accumulator and
adds 14 to the allocation count. -/
theorem uStep_shape (i : ℤ) (q : ℚ) (al : ℕ) :
    ∃ s, uStep i (.d q) al = (.d s, al + 14) := by
  cases hc : uCond i <;>
    simp only [uStep, hc, ladd_d_any, Bool.false_eq_true, if_false, if_true] <;>
    exact ⟨_, rfl⟩

theorem tStep_shape (i : ℤ) (q : ℚ) (al : ℕ) :
    ∃ s, tStep i (.d q) al = (.d s, al + 14) := by
  cases hc : tCond i <;>
    simp only [tStep, hc, ladd_d_any, Bool.false_eq_true, if_false, if_true] <;>
    exact ⟨_, rfl⟩

/-- The sum component of a step does not depend on the allocation count. -/
theorem uStep_fst (i : ℤ) (s : LNum) (a b : ℕ) :
    (uStep i s a).1 = (uStep i s b).1 := rfl

theorem tStep_fst (i : ℤ) (s : LNum) (a b : ℕ) :
    (tStep i s a).1 = (tStep i s b).1 := rfl

theorem run_succ_u (n : ℕ) (al : ℕ) :
    uRun (n + 1) al = uStep ((n : ℤ) + 1) (uRun n al).1 (uRun n al).2 := by
  unfold uRun
  rw [List.range_succ, List.foldl_append, List.foldl_cons, List.foldl_nil]

theorem run_succ_t (n : ℕ) (al : ℕ) :
    tRun (n + 1) al = tStep ((n : ℤ) + 1) (tRun n al).1 (tRun n al).2 := by
  unfold tRun
  rw [List.range_succ, List.foldl_append, List.foldl_cons, List.foldl_nil]

/-- Main equivalence invariant: on every `n ≤ 10000` both scripts return
the same accumulator (a float) and both perform `14·n` allocations,
whatever allocation count each interpreter starts from. -/
theorem run_eq : ∀ n : ℕ, n ≤ 10000 → ∀ au bt : ℕ,
    ∃ s, uRun n au = (.d s, au + 14 * n) ∧ tRun n bt = (.d s, bt + 14 * n) := by
  intro n
  induction n with
  | zero => exact fun _ au bt => ⟨dlit 0, rfl, rfl⟩
  | succ n ih =>
    intro hsucc au bt
    obtain ⟨s, hu, ht⟩ := ih (by omega) au bt
    obtain ⟨su, hsu⟩ := uStep_shape ((n : ℤ) + 1) s (au + 14 * n)
    obtain ⟨st2, hst2⟩ := tStep_shape ((n : ℤ) + 1) s (bt + 14 * n)
    have hn : ((n : ℤ) + 1) ≤ 10000 := by exact_mod_cast hsucc
    have heq := step_eq ((n : ℤ) + 1) s (au + 14 * n) (bt + 14 * n) (by omega) hn
    rw [hsu, hst2] at heq
    simp only [LNum.d.injEq] at heq
    refine ⟨su, ?_, ?_⟩
    · rw [run_succ_u, hu]
      dsimp only
      rw [hsu]
      have harith : au + 14 * n + 14 = au + 14 * (n + 1) := by ring
      rw [harith]
    · rw [run_succ_t, ht]
      dsimp only
      rw [hst2, ← heq]
      have harith : bt + 14 * n + 14 = bt + 14 * (n + 1) := by ring
      rw [harith]

/-- The two `do_work` variants agree exactly on every `n ≤ 10000`, and both
allocate `14·n` objects. -/
theorem doWork_eq_upto (n : ℕ) (h : n ≤ 10000) :
    uDoWork n = tDoWork n ∧ uAllocCount n = 14 * n ∧ tAllocCount n = 14 * n := by
  obtain ⟨s, hu, ht⟩ := run_eq n h 0 0
  unfold uDoWork tDoWork uAllocCount tAllocCount
  rw [hu, ht]
  exact ⟨rfl, by omega, by omega⟩

/-! ## Frame property of allocation -/

theorem alloc_frame {α : Type} [DecidableEq α] (h h2 : Heap α) (rn : ℕ) (v : α)
    (hWF : Heap.WF h) (he : Heap.alloc h v = (h2, rn)) :
    rn ∉ Heap.keys h ∧ Heap.find h2 rn ≠ none ∧
      ∀ r ∈ Heap.keys h, Heap.find h2 r = Heap.find h r := by
  have hh2 : h2 = ⟨h.next + 1, (h.next, v) :: h.cells⟩ := by
    have := congrArg Prod.fst he
    simpa [Heap.alloc] using this.symm
  have hrn : rn = h.next := by
    have := congrArg Prod.snd he
    simpa [Heap.alloc] using this.symm
  subst hh2
  subst hrn
  refine ⟨?_, ?_, ?_⟩
  · intro hmem
    exact absurd (hWF _ hmem) (lt_irrefl _)
  · simp [Heap.find, List.lookup]
  · intro r hr
    have hne : (r == h.next) = false := by
      have : r ≠ h.next := fun he2 => absurd (hWF _ (he2 ▸ hr)) (lt_irrefl _)
      simpa using this
    simp [Heap.find, List.lookup, hne]

theorem v2Apply_frame (k : VOpKind) (h h2 : Heap Vector2) (ra rn : ℕ)
    (arg : ℕ ⊕ ℚ) (hWF : Heap.WF h) (happ : v2Apply k h ra arg = some (h2, rn)) :
    rn ∉ Heap.keys h ∧ Heap.find h2 rn ≠ none ∧
      ∀ r ∈ Heap.keys h, Heap.find h2 r = Heap.find h r := by
  cases k <;> rcases arg with rb | s <;> simp only [v2Apply] at happ <;>
    try exact Option.noConfusion happ
  case addK.inl =>
    cases hfa : h.find ra <;> cases hfb : h.find rb <;>
      simp only [hfa, hfb] at happ <;>
      first
        | exact Option.noConfusion happ
        | exact alloc_frame h h2 rn _ hWF (Option.some.inj happ)
  case subK.inl =>
    cases hfa : h.find ra <;> cases hfb : h.find rb <;>
      simp only [hfa, hfb] at happ <;>
      first
        | exact Option.noConfusion happ
        | exact alloc_frame h h2 rn _ hWF (Option.some.inj happ)
  case mulK.inr =>
    cases hfa : h.find ra <;> simp only [hfa] at happ <;>
      first
        | exact Option.noConfusion happ
        | exact alloc_frame h h2 rn _ hWF (Option.some.inj happ)
  case divK.inr =>
    cases hfa : h.find ra <;> simp only [hfa] at happ <;>
      first
        | exact Option.noConfusion happ
        | exact alloc_frame h h2 rn _ hWF (Option.some.inj happ)

theorem v3Apply_frame (k : VOpKind) (h h2 : Heap Vector3) (ra rn : ℕ)
    (arg : ℕ ⊕ ℚ) (hWF : Heap.WF h) (happ : v3Apply k h ra arg = some (h2, rn)) :
    rn ∉ Heap.keys h ∧ Heap.find h2 rn ≠ none ∧
      ∀ r ∈ Heap.keys h, Heap.find h2 r = Heap.find h r := by
  cases k <;> rcases arg with rb | s <;> simp only [v3Apply] at happ <;>
    try exact Option.noConfusion happ
  case addK.inl =>
    cases hfa : h.find ra <;> cases hfb : h.find rb <;>
      simp only [hfa, hfb] at happ <;>
      first
        | exact Option.noConfusion happ
        | exact alloc_frame h h2 rn _ hWF (Option.some.inj happ)
  case subK.inl =>
    cases hfa : h.find ra <;> cases hfb : h.find rb <;>
      simp only [hfa, hfb] at happ <;>
      first
        | exact Option.noConfusion happ
        | exact alloc_frame h h2 rn _ hWF (Option.some.inj happ)
  case mulK.inr =>
    cases hfa : h.find ra <;> simp only [hfa] at happ <;>
      first
        | exact Option.noConfusion happ
        | exact alloc_frame h h2 rn _ hWF (Option.some.inj happ)
  case divK.inr =>
    cases hfa : h.find ra <;> simp only [hfa] at happ <;>
      first
        | exact Option.noConfusion happ
        | exact alloc_frame h h2 rn _ hWF (Option.some.inj happ)

/-! ## Claim theorems -/

/-- C1: for every tested iteration count (the harness tests n = 100, 1000,
10000) the usertype variant's `do_work(n)` and the table variant's
`do_work(n)` return numerically identical sums — in fact exactly equal
(integer contributions exact, and on this range every floating-point
contribution is also exact, so equality holds to zero units of rounding,
well within the claimed one-unit tolerance). -/
theorem c1_tested_sums_equal :
    uDoWork 100 = tDoWork 100 ∧ uDoWork 1000 = tDoWork 1000 ∧
      uDoWork 10000 = tDoWork 10000 :=
  ⟨(doWork_eq_upto 100 (by norm_num)).1, (doWork_eq_upto 1000 (by norm_num)).1,
    (doWork_eq_upto 10000 (by norm_num)).1⟩

/-- C2 (amended): the point-in-region conditional `v2a.x >= r.x and
v2a.y >= r.y` holds — and hence contributes exactly `1.0` to the sum — on
every iteration index `1 ≤ i ≤ 2^63 − 2`, in both workload variants.  The
bound `2^63 − 2` is forced by 64-bit Lua integer wrap-around: at
`i = 2^63 − 1` the computation of `i+1` wraps to `−2^63` and the
conditional is false (see the counterexample). -/
theorem c2_cond_holds_nonwrapping (i : ℤ) (h1 : 1 ≤ i) (h2 : i ≤ 2 ^ 63 - 2) :
    uCond i = true ∧ tCond i = true :=
  ⟨uCond_true i h1 h2, tCond_true i h1 h2⟩

/-- C2 witness: the amended theorem applied at the concrete index `i = 7`. -/
theorem c2_witness :
    (1 : ℤ) ≤ 7 ∧ (7 : ℤ) ≤ 2 ^ 63 - 2 ∧ uCond 7 = true ∧ tCond 7 = true :=
  ⟨by norm_num, by norm_num,
    (c2_cond_holds_nonwrapping 7 (by norm_num) (by norm_num)).1,
    (c2_cond_holds_nonwrapping 7 (by norm_num) (by norm_num)).2⟩

/-- C2 counterexample: the claim as stated ("for every iteration index `i`
from 1 upward") fails at `i = 2^63 − 1`, the largest Lua integer: `i+1`
wraps to `−2^63`, so `v2a.y` is negative while `r.y ≈ 0.3·i` is huge and
positive, and the conditional is false in both variants. -/
theorem c2_counterexample :
    uCond 9223372036854775807 = false ∧ tCond 9223372036854775807 = false := by
  decide

/-- C3: either variant's `do_work` is a deterministic pure function of `n`:
two invocations with the same `n` — even starting from different
interpreter heap states (modelled by the incoming allocation counter) —
return the same sum.  There is no randomness or uninitialized state in the
embedding; the sum depends on nothing but `n`. -/
theorem c3_deterministic :
    ∀ (n : ℕ) (al1 al2 : ℕ),
      (uRun n al1).1 = (uRun n al2).1 ∧ (tRun n al1).1 = (tRun n al2).1 := by
  intro n
  induction n with
  | zero => exact fun al1 al2 => ⟨rfl, rfl⟩
  | succ n ih =>
    intro al1 al2
    obtain ⟨hu, ht⟩ := ih al1 al2
    constructor
    · rw [run_succ_u, run_succ_u, hu]
      exact uStep_fst _ _ _ _
    · rw [run_succ_t, run_succ_t, ht]
      exact tStep_fst _ _ _ _

/-- C4 counterexample: the claim says variant A (`bench.cpp`) restricts the
2D and 3D vectors to field access only, but `bench.cpp` registers the
addition metamethod for both vector types. -/
theorem c4_counterexample :
    benchA_V2Reg.addOp.isSome = true ∧ benchA_V3Reg.addOp.isSome = true :=
  ⟨rfl, rfl⟩

/-- C4 (amended): in variant A (`bench.cpp`) the 2D and 3D vector types
support field access and the addition operator only — subtraction, scalar
multiplication and scalar division are not registered there; the full
operator set is defined only in variant B (the full-operator file). -/
theorem c4_registered_operators :
    (benchA_V2Reg.addOp.isSome = true ∧ benchA_V2Reg.subOp = none ∧
      benchA_V2Reg.mulOp = none ∧ benchA_V2Reg.divOp = none) ∧
    (benchA_V3Reg.addOp.isSome = true ∧ benchA_V3Reg.subOp = none ∧
      benchA_V3Reg.mulOp = none ∧ benchA_V3Reg.divOp = none) ∧
    (fullB_V2Reg.addOp.isSome = true ∧ fullB_V2Reg.subOp.isSome = true ∧
      fullB_V2Reg.mulOp.isSome = true ∧ fullB_V2Reg.divOp.isSome = true) ∧
    (fullB_V3Reg.addOp.isSome = true ∧ fullB_V3Reg.subOp.isSome = true ∧
      fullB_V3Reg.mulOp.isSome = true ∧ fullB_V3Reg.divOp.isSome = true) :=
  ⟨⟨rfl, rfl, rfl, rfl⟩, ⟨rfl, rfl, rfl, rfl⟩, ⟨rfl, rfl, rfl, rfl⟩,
    ⟨rfl, rfl, rfl, rfl⟩⟩

/-- C5: `do_work(1)` on the operator-overload (variant B) usertype workload
returns exactly the sum obtained by manually evaluating the fixed formulas
of §4.3 at `i = 1` (the value is `5022`); exact equality implies equality
to floating-point tolerance. -/
theorem c5_manual_n1 : uDoWork 1 = .d specManualSum1 := by decide

/-- C6: `do_work(0)` returns the identity accumulator value `0.0` in both
workload variants, and performs no allocations (no geometry value or table
is constructed). -/
theorem c6_zero_iterations :
    uDoWork 0 = .d 0 ∧ tDoWork 0 = .d 0 ∧
      uAllocCount 0 = 0 ∧ tAllocCount 0 = 0 := by
  refine ⟨?_, ?_, rfl, rfl⟩ <;>
    · show LNum.d (dlit 0) = .d 0
      rw [dlit_zero]

/-- C7: every registered operator overload (add, subtract, scalar multiply,
scalar divide) on the 2D and 3D vector types allocates a fresh cell for its
result (an id not present in the incoming heap, holding a value) and leaves
every existing cell — in particular both operands — unchanged. -/
theorem c7_ops_frame :
    (∀ (k : VOpKind) (h h2 : Heap Vector2) (ra rn : ℕ) (arg : ℕ ⊕ ℚ),
        Heap.WF h → v2Apply k h ra arg = some (h2, rn) →
        rn ∉ Heap.keys h ∧ Heap.find h2 rn ≠ none ∧
          ∀ r ∈ Heap.keys h, Heap.find h2 r = Heap.find h r) ∧
    (∀ (k : VOpKind) (h h2 : Heap Vector3) (ra rn : ℕ) (arg : ℕ ⊕ ℚ),
        Heap.WF h → v3Apply k h ra arg = some (h2, rn) →
        rn ∉ Heap.keys h ∧ Heap.find h2 rn ≠ none ∧
          ∀ r ∈ Heap.keys h, Heap.find h2 r = Heap.find h r) :=
  ⟨v2Apply_frame, v3Apply_frame⟩

/-- C7 witness: the addition overload applied on a concrete two-cell heap:
the result cell is fresh and both operand cells are unchanged. -/
theorem c7_witness :
    Heap.WF (⟨2, [(0, ⟨1, 2⟩), (1, ⟨3, 4⟩)]⟩ : Heap Vector2) ∧
    v2Apply .addK ⟨2, [(0, ⟨1, 2⟩), (1, ⟨3, 4⟩)]⟩ 0 (.inl 1) =
      some (⟨3, [(2, ⟨4, 6⟩), (0, ⟨1, 2⟩), (1, ⟨3, 4⟩)]⟩, 2) ∧
    (2 ∉ Heap.keys (⟨2, [(0, ⟨1, 2⟩), (1, ⟨3, 4⟩)]⟩ : Heap Vector2) ∧
      Heap.find (⟨3, [(2, ⟨4, 6⟩), (0, ⟨1, 2⟩), (1, ⟨3, 4⟩)]⟩ : Heap Vector2) 2 ≠ none ∧
      ∀ r ∈ Heap.keys (⟨2, [(0, ⟨1, 2⟩), (1, ⟨3, 4⟩)]⟩ : Heap Vector2),
        Heap.find (⟨3, [(2, ⟨4, 6⟩), (0, ⟨1, 2⟩), (1, ⟨3, 4⟩)]⟩ : Heap Vector2) r =
          Heap.find (⟨2, [(0, ⟨1, 2⟩), (1, ⟨3, 4⟩)]⟩ : Heap Vector2) r) := by
  have hWF : Heap.WF (⟨2, [(0, ⟨1, 2⟩), (1, ⟨3, 4⟩)]⟩ : Heap Vector2) := by
    decide
  have happ : v2Apply .addK ⟨2, [(0, ⟨1, 2⟩), (1, ⟨3, 4⟩)]⟩ 0 (.inl 1) =
      some (⟨3, [(2, ⟨4, 6⟩), (0, ⟨1, 2⟩), (1, ⟨3, 4⟩)]⟩, 2) := by
    decide
  exact ⟨hWF, happ, c7_ops_frame.1 .addK _ _ 0 2 (.inl 1) hWF happ⟩

/-- C8: for every `n` up to 10000 the usertype and table variants' sums are
exactly (bitwise) identical: on this range every constructor argument and
intermediate value is exactly representable in the 32-bit float fields of
the C++ structs (and every Lua-side double operation is exact or performed
identically in both variants), so the narrower usertype storage loses
nothing. -/
theorem c8_bitwise_identical (n : ℕ) (h : n ≤ 10000) : uDoWork n = tDoWork n :=
  (doWork_eq_upto n h).1

/-- C8 witness: the theorem applied at the concrete count `n = 3`. -/
theorem c8_witness : (3 : ℕ) ≤ 10000 ∧ uDoWork 3 = tDoWork 3 :=
  ⟨by norm_num, c8_bitwise_identical 3 (by norm_num)⟩

/-- C10: the registered addition overloads on the 2D and 3D vector types
are commutative: swapping the operands yields a value with identical
fields (binary32 addition of the same two rationals in either order). -/
theorem c10_add_commutative :
    (∀ a b : Vector2, v2AddLam a b = v2AddLam b a) ∧
    (∀ a b : Vector3, v3AddLam a b = v3AddLam b a) := by
  constructor <;> intro a b <;>
    simp [v2AddLam, v3AddLam, add_comm]

end LuaBench
